import Mathlib

/-!
# pugmail / `mandrill.js`: message composition, address parsing and dispatch

A shallow embedding of `src/mandrill.js`.

Modelling conventions.

* JavaScript values are the data values a caller hands to the library
  (`undefined`, `null`, booleans, integral numbers, strings, arrays, plain
  objects).  Function values are not modelled, so an attribute bag never
  carries a callable.
* A data object is the list of its own properties in enumeration order
  (integer-like keys in ascending order first, then the other keys in the
  order of their creation); its prototype is `Object.prototype`.  The two
  objects of a Message that are written under keys computed at run time,
  `attrs` and `locals`, also carry their prototype, which an assignment to
  `__proto__` can change.
* A JavaScript string is a Lean `String`; one Lean character stands for one
  unit of the JavaScript string.  The delimiters the code looks at (space,
  `<`, `>`, the four line terminators) are single units in both readings.
* A `throw` is `Except.error`; the state at the throw is not kept.
* The collaborators (`subs`, the renderer behind `resolveTemplate`, the HTTP
  transport behind `superagent.post`) are parameters collected in `Env`.  They
  may throw, the renderer may write to the locals, and each says whether it
  calls its handler before it returns or later.  What a `send` does to the
  outside world, handlers included, is recorded as a list of `Event`s.
-/

namespace Mandrill

/-! ## JavaScript values -/

/-- The data values of the embedding.  A number is an integer that a
JavaScript number holds exactly (at most `2 ^ 53` in magnitude). -/
inductive JSValue where
  | undefined
  | null
  | bool (b : Bool)
  | num (n : Int)
  | str (s : String)
  | arr (xs : List JSValue)
  | obj (ps : List (String × JSValue))

/-- Property lists: the own enumerable properties of an object, in enumeration order. -/
abbrev Props := List (String × JSValue)

/-- The results of the `typeof` operator. -/
inductive JSType where
  | undefined
  | object
  | boolean
  | number
  | string
  | function
  deriving DecidableEq

/-- The `typeof` operator. -/
def JSValue.typeof : JSValue → JSType
  | .undefined => .undefined
  | .null => .object
  | .bool _ => .boolean
  | .num _ => .number
  | .str _ => .string
  | .arr _ => .object
  | .obj _ => .object

/-- The conversion `ToBoolean` that `if (x)`, `!x` and `x ? a : b` apply. -/
def JSValue.truthy : JSValue → Bool
  | .undefined => false
  | .null => false
  | .bool b => b
  | .num n => decide (n ≠ 0)
  | .str s => decide (s.data ≠ [])
  | .arr _ => true
  | .obj _ => true

/-- What a thrown exception is: the code itself only provokes `TypeError`s
(`match[1]` on `null`, a call of something that is not a function); `thrown` is
an exception that a collaborator raises.  `unmodelled` marks the two places
where the embedding stops: a number outside the range above, and the loop of
`substitute` over recipients that are not an own property of `attrs`, which no
operation produces. -/
inductive Err where
  | typeError
  | thrown
  | unmodelled
  deriving DecidableEq

/-! ## The regular expression `/(.*) <([^>]+)>/`

A backtracking matcher in the continuation style of the ECMAScript
specification: a matcher takes the input that is left, the captures so far and
a continuation, and returns the captures of the first successful path.
-/

/-- The line terminators, which `.` does not match. -/
def isLineTerminator (c : Char) : Bool :=
  c = Char.ofNat 0x0A || c = Char.ofNat 0x0D || c = Char.ofNat 0x2028 || c = Char.ofNat 0x2029

/-- One-character matchers: `.`, a literal character, and the class `[^c]`. -/
inductive CharSet where
  | dot
  | lit (c : Char)
  | except (c : Char)

/-- Whether a one-character matcher accepts a character. -/
def CharSet.test : CharSet → Char → Bool
  | .dot, c => !isLineTerminator c
  | .lit d, c => decide (c = d)
  | .except d, c => !decide (c = d)

/-- The fragment of regular-expression syntax that the pattern uses. -/
inductive Regex where
  | char (cs : CharSet)
  | star (cs : CharSet)
  | plus (cs : CharSet)
  | seq (a b : Regex)
  | group (n : Nat) (r : Regex)

/-- Captures: group number and captured text, most recent first. -/
abbrev Caps := List (Nat × List Char)

/-- Greedy repetition of a one-character matcher: take as many characters as
possible first, and give them back one at a time while the continuation fails. -/
def greedy {α : Type} (cs : CharSet) : List Char → (List Char → Option α) → Option α
  | [], k => k []
  | c :: rest, k =>
    if cs.test c then
      match greedy cs rest k with
      | some r => some r
      | none => k (c :: rest)
    else k (c :: rest)

/-- The matcher of a regular expression. -/
def Regex.run : Regex → List Char → Caps → (List Char → Caps → Option Caps) → Option Caps
  | .char _, [], _, _ => none
  | .char cs, c :: rest, caps, k => if cs.test c then k rest caps else none
  | .star cs, s, caps, k => greedy cs s (fun rest => k rest caps)
  | .plus _, [], _, _ => none
  | .plus cs, c :: rest, caps, k =>
    if cs.test c then greedy cs rest (fun rest' => k rest' caps) else none
  | .seq a b, s, caps, k => a.run s caps (fun s' caps' => b.run s' caps' k)
  | .group n r, s, caps, k =>
    r.run s caps (fun s' caps' => k s' ((n, s.take (s.length - s'.length)) :: caps'))

/-- Matching at one start position. -/
def Regex.matchAt (re : Regex) (s : List Char) : Option Caps :=
  re.run s [] (fun _ caps => some caps)

/-- The search of `RegExp.prototype.exec` for a pattern without flags: the start
positions are tried from the left, the first one that matches wins; `none` is
the `null` result. -/
def Regex.exec (re : Regex) : List Char → Option Caps
  | [] => re.matchAt []
  | c :: rest =>
    match re.matchAt (c :: rest) with
    | some caps => some caps
    | none => re.exec rest

/-- The element `match[n]` of a match result. -/
def capture (caps : Caps) (n : Nat) : JSValue :=
  match caps.lookup n with
  | some cs => .str (String.mk cs)
  | none => .undefined

/-- The part ` <([^>]+)>` of the literal, behind the first group. -/
def addressTail : Regex :=
  .seq (.char (.lit ' '))
    (.seq (.char (.lit '<'))
      (.seq (.group 2 (.plus (.except '>'))) (.char (.lit '>'))))

/-- The literal `/(.*) <([^>]+)>/`. -/
def addressPattern : Regex :=
  .seq (.group 1 (.star .dot)) addressTail

/-! ## `parse` -/

/-- The loop of `String.prototype.indexOf` for a one-character search string:
the index of the first occurrence, counted from `i`, or `-1`. -/
def indexOfFrom (c : Char) : List Char → Nat → Int
  | [], _ => -1
  | x :: xs, i => if x = c then (i : Int) else indexOfFrom c xs (i + 1)

/-- The call `s.indexOf(c)`. -/
def indexOf (s : String) (c : Char) : Int :=
  indexOfFrom c s.data 0

/-- The operator `~` on a small integer. -/
def bitNot (n : Int) : Int :=
  -n - 1

/-- The function `parse` of `mandrill.js`. -/
def parse (email : JSValue) : Except Err JSValue :=
  if email.typeof = .object then .ok email
  else
    match email with
    | .str s =>
      if bitNot (indexOf s '<') ≠ 0 then
        match addressPattern.exec s.data with
        | none => .error .typeError
        | some caps => .ok (.obj [("name", capture caps 1), ("email", capture caps 2)])
      else .ok (.obj [("email", .str s)])
    | _ => .error .typeError


/-! ## Properties -/

/-- The value of an own property, or `undefined` when there is none. -/
def getProp : Props → String → JSValue
  | [], _ => .undefined
  | (k', v) :: ps, k => if k' = k then v else getProp ps k

/-- Whether an own property is present. -/
def hasProp : Props → String → Bool
  | [], _ => false
  | (k', _) :: ps, k => if k' = k then true else hasProp ps k

/-- The number that a text of decimal digits denotes, behind the digits `acc`. -/
def digitsValue : List Char → Nat → Option Nat
  | [], acc => some acc
  | c :: cs, acc =>
    if 48 ≤ c.toNat ∧ c.toNat ≤ 57 then digitsValue cs (acc * 10 + (c.toNat - 48)) else none

/-- The array index that a key is, if it is one: the canonical numeral of an
integer below `2 ^ 32 - 1`. -/
def arrayIndex (k : String) : Option Nat :=
  match k.data with
  | [] => none
  | [c] => digitsValue [c] 0
  | c :: cs =>
    if c = '0' then none
    else
      match digitsValue (c :: cs) 0 with
      | some n => if n < 4294967295 then some n else none
      | none => none

/-- The write to a property that is present: it keeps its place. -/
def replaceProp : Props → String → JSValue → Props
  | [], _, _ => []
  | (k', v') :: ps, k, v => if k' = k then (k, v) :: ps else (k', v') :: replaceProp ps k v

/-- The creation of a property whose key is the array index `n`: behind the
smaller indices, before everything else. -/
def insertIndexed : Props → Nat → String → JSValue → Props
  | [], _, k, v => [(k, v)]
  | (k', v') :: ps, n, k, v =>
    match arrayIndex k' with
    | some n' => if n' < n then (k', v') :: insertIndexed ps n k v else (k, v) :: (k', v') :: ps
    | none => (k, v) :: (k', v') :: ps

/-- The write of an own data property: a property that is present keeps its
place, a new array index goes among the indices, any other new key to the end. -/
def setProp (ps : Props) (k : String) (v : JSValue) : Props :=
  if hasProp ps k then replaceProp ps k v
  else
    match arrayIndex k with
    | some n => insertIndexed ps n k v
    | none => ps ++ [(k, v)]

/-- The prototype of an object: `Object.prototype`, `null`, or a data value (an
object or an array, whose own prototype is the standard one). -/
inductive Proto where
  | objectPrototype
  | null
  | value (v : JSValue)

/-- An object that is written under keys computed at run time: its own
properties and its prototype. -/
structure Obj where
  own : Props
  proto : Proto

/-- Whether a write of `__proto__` that finds no own property arrives at the
accessor of `Object.prototype`: not behind a `null` prototype, and not behind a
data object that has `__proto__` as an own property. -/
def Proto.reachesSetter : Proto → Bool
  | .objectPrototype => true
  | .null => false
  | .value (.obj ps) => !hasProp ps "__proto__"
  | .value _ => true

/-- The setter of `Object.prototype.__proto__`: an object or `null` becomes the
prototype, any other value is ignored. -/
def Proto.setTo (p : Proto) : JSValue → Proto
  | .obj ps => .value (.obj ps)
  | .arr xs => .value (.arr xs)
  | .null => .null
  | _ => p

/-- The assignment `o[k] = v` with a key computed at run time. -/
def assign (o : Obj) (k : String) (v : JSValue) : Obj :=
  if k = "__proto__" ∧ hasProp o.own k = false ∧ o.proto.reachesSetter = true then
    { o with proto := o.proto.setTo v }
  else { o with own := setProp o.own k v }

/-- The read `o.k` for a name that no built-in prototype defines: the own
property, else the property of a data object that is the prototype. -/
def lookup (o : Obj) (k : String) : JSValue :=
  if hasProp o.own k then getProp o.own k
  else
    match o.proto with
    | .value (.obj ps) => getProp ps k
    | _ => .undefined

/-- The read `x.k` on a data value that is neither `undefined` nor `null`, for
a name that no built-in prototype defines: only a plain object can hold it. -/
def propOf : JSValue → String → JSValue
  | .obj ps, k => getProp ps k
  | _, _ => .undefined

/-! ## Conversions, array helpers -/

mutual
/-- The conversion `ToString`.  An object with an own property `toString` has
no callable conversion method left and the conversion throws. -/
def JSValue.toJSString : JSValue → Except Err String
  | .undefined => .ok "undefined"
  | .null => .ok "null"
  | .bool b => .ok (if b then "true" else "false")
  | .num n => if n.natAbs ≤ 9007199254740992 then .ok (toString n) else .error .unmodelled
  | .str s => .ok s
  | .arr xs => joinElems xs
  | .obj ps => if hasProp ps "toString" then .error .typeError else .ok "[object Object]"
/-- The method `Array.prototype.join` with the separator `,`. -/
def joinElems : List JSValue → Except Err String
  | [] => .ok ""
  | x :: xs =>
    match elemString x with
    | .error e => .error e
    | .ok a =>
      match joinRest xs with
      | .error e => .error e
      | .ok b => .ok (a ++ b)
/-- The elements after the first, each behind a separator. -/
def joinRest : List JSValue → Except Err String
  | [] => .ok ""
  | x :: xs =>
    match elemString x with
    | .error e => .error e
    | .ok a =>
      match joinRest xs with
      | .error e => .error e
      | .ok b => .ok ("," ++ a ++ b)
/-- One element in `join`: `undefined` and `null` give the empty string. -/
def elemString : JSValue → Except Err String
  | .undefined => .ok ""
  | .null => .ok ""
  | .bool b => .ok (if b then "true" else "false")
  | .num n => if n.natAbs ≤ 9007199254740992 then .ok (toString n) else .error .unmodelled
  | .str s => .ok s
  | .arr xs => joinElems xs
  | .obj ps => if hasProp ps "toString" then .error .typeError else .ok "[object Object]"
end

/-- The call `x.toString()` on a data value. -/
def toStringCall : JSValue → Except Err String
  | .undefined => .error .typeError
  | .null => .error .typeError
  | v => v.toJSString

/-- The method `Array.prototype.concat` with one argument: an array argument is
spread, any other value is appended as one element. -/
def arrConcat (xs : List JSValue) : JSValue → List JSValue
  | .arr ys => xs ++ ys
  | v => xs ++ [v]

/-- The call `a.concat(v)` for an arbitrary receiver `a`: arrays and strings have
the method, `undefined` and `null` have no properties, and on the other data
values `concat` is not a function. -/
def concatValue : JSValue → JSValue → Except Err JSValue
  | .arr xs, v => .ok (.arr (arrConcat xs v))
  | .str s, v =>
    match v.toJSString with
    | .error e => .error e
    | .ok t => .ok (.str (s ++ t))
  | _, _ => .error .typeError

/-- The indexed entries of a list, from index `i` on. -/
def indexed : List JSValue → Nat → Props
  | [], _ => []
  | x :: xs, i => (toString i, x) :: indexed xs (i + 1)

/-- The pairs `(k, o[k])` that `for (var k in o)` goes through. -/
def forInEntries : JSValue → Props
  | .obj ps => ps
  | .arr xs => indexed xs 0
  | .str s => indexed (s.data.map (fun c => .str (String.singleton c))) 0
  | _ => []

/-- The call `to.map(parse)` on an array: the first failing element throws. -/
def mapParse : List JSValue → Except Err (List JSValue)
  | [] => .ok []
  | x :: xs =>
    match parse x with
    | .error e => .error e
    | .ok y =>
      match mapParse xs with
      | .error e => .error e
      | .ok ys => .ok (y :: ys)

/-- The library function `extend(dst, src)`: assigns every enumerable property
of `src` to `dst` and returns `dst`. -/
def extend (dst : Obj) (src : JSValue) : Obj :=
  (forInEntries src).foldl (fun acc p => assign acc p.1 p.2) dst

/-! ## Messages -/

/-- The fields of a `Message`; `attrsProto` and `localsProto` are the
prototypes of the objects `attrs` and `locals`. -/
structure Message where
  opts : Props
  attrs : Props
  attrsProto : Proto
  locals : Props
  localsProto : Proto
  key : JSValue
  sent : Bool
  plaintextTemplate : JSValue

/-- The object `this.attrs`. -/
def Message.attrsObj (m : Message) : Obj :=
  { own := m.attrs, proto := m.attrsProto }

/-- The object `this.locals`. -/
def Message.localsObj (m : Message) : Obj :=
  { own := m.locals, proto := m.localsProto }

/-- What a method hands back: `this`, a data value, or something else (a
function, or the JSON text of `toString`, which no operation reads). -/
inductive Ret where
  | self
  | value (v : JSValue)
  | other

/-- The result of a method call. -/
abbrev Outcome := Except Err (Message × Ret)

/-- The state the constructor sets up before it looks at `attrs`. -/
def Message.fresh (key : JSValue) : Message where
  opts := []
  attrs :=
    [("to", .arr []), ("tags", .arr []), ("inline_css", .bool true), ("track_opens", .bool true),
     ("track_clicks", .bool true), ("preserve_recipients", .null),
     ("headers", .obj [("Content-Type", .str "text/html; charset=\"UTF-8\"")])]
  attrsProto := .objectPrototype
  locals := []
  localsProto := .objectPrototype
  key := key
  sent := false
  plaintextTemplate := .undefined

/-- The accessor that `delegates(proto, 'attrs').fluent(name)` installs: with a
value other than `undefined` it writes and returns `this`, otherwise it reads. -/
def fluentAttrs (name : String) (val : JSValue) (m : Message) : Outcome :=
  if val.typeof ≠ .undefined then .ok ({ m with attrs := setProp m.attrs name val }, .self)
  else .ok (m, .value (lookup m.attrsObj name))

/-- The accessor that `delegates(proto, 'opts').fluent(name)` installs. -/
def fluentOpts (name : String) (val : JSValue) (m : Message) : Outcome :=
  if val.typeof ≠ .undefined then .ok ({ m with opts := setProp m.opts name val }, .self)
  else .ok (m, .value (getProp m.opts name))

/-- The method `subject`. -/
def Message.subject (val : JSValue) (m : Message) : Outcome :=
  fluentAttrs "subject" val m

/-- The method `html`. -/
def Message.html (val : JSValue) (m : Message) : Outcome :=
  fluentAttrs "html" val m

/-- The method `template`. -/
def Message.template (val : JSValue) (m : Message) : Outcome :=
  fluentOpts "template" val m

/-- The method `dryrun`. -/
def Message.dryrun (val : JSValue) (m : Message) : Outcome :=
  fluentOpts "dryrun" val m

/-- The conversion of a value to a property key. -/
def toPropertyKey (key : JSValue) : Except Err String :=
  key.toJSString

/-- The method `local`; a missing second argument is `undefined`. -/
def Message.local (key value : JSValue) (m : Message) : Outcome :=
  if key.typeof = .object then
    .ok ({ m with locals := (extend m.localsObj key).own,
                  localsProto := (extend m.localsObj key).proto }, .self)
  else
    match toPropertyKey key with
    | .error e => .error e
    | .ok k =>
      .ok ({ m with locals := (assign m.localsObj k value).own,
                    localsProto := (assign m.localsObj k value).proto }, .self)

/-- The method `to`; `none` is the call without arguments. -/
def Message.to (arg : Option JSValue) (m : Message) : Outcome :=
  match arg with
  | none => .ok (m, .self)
  | some v =>
    match (if v.typeof = .string then JSValue.arr [v] else v) with
    | .arr xs =>
      match mapParse xs with
      | .error e => .error e
      | .ok ys =>
        match concatValue (lookup m.attrsObj "to") (.arr ys) with
        | .error e => .error e
        | .ok v => .ok ({ m with attrs := setProp m.attrs "to" v }, .self)
    | _ => .error .typeError

/-- The method `from`. -/
def Message.from (v : JSValue) (m : Message) : Outcome :=
  match parse v with
  | .error e => .error e
  | .ok .null => .error .typeError
  | .ok r =>
    .ok ({ m with attrs := setProp (setProp m.attrs "from_email" (propOf r "email"))
                             "from_name" (propOf r "name") }, .self)

/-- The method `altText`. -/
def Message.altText (template : JSValue) (m : Message) : Outcome :=
  if !template.truthy then .ok (m, .value m.plaintextTemplate)
  else .ok ({ m with plaintextTemplate := template }, .self)

/-- The method `tag`. -/
def Message.tag (tag : JSValue) (m : Message) : Outcome :=
  match concatValue (lookup m.attrsObj "tags")
      (if tag.typeof = .string then JSValue.arr [tag] else tag) with
  | .error e => .error e
  | .ok v => .ok ({ m with attrs := setProp m.attrs "tags" v }, .self)

/-! ## The collaborators -/

/-- What a call of `resolveTemplate` does: it throws before it returns (the
path has no extension that names an engine, the path is no string, the engine
throws), or the handler is called with `err` and the rendered value, before
`resolveTemplate` returns or later (`late`); `locals` is the locals object as
the engine leaves it. -/
inductive Resolved where
  | threw (e : Err)
  | called (late : Bool) (err out : JSValue) (locals : Obj)

/-- The response object of the transport: the flag `res.ok` (set by the
transport for a 2xx status), `res.status` and `res.body`. -/
structure Response where
  ok : Bool
  status : Nat
  body : JSValue

/-- The external collaborators: `subs(value, locals)`, where `locals` may be
missing and the call may throw; the renderer called with a template path and
the locals; the transport called with the payload `key` and `message`, which
passes `err` and `res` to the handler of `end`, and `lateReply`, whether it
does so after the call that posted has returned. -/
structure Env where
  subs : JSValue → Option Obj → Except Err JSValue
  render : JSValue → Obj → Resolved
  post : JSValue → Props → JSValue × Response
  lateReply : JSValue → Props → Bool

/-- What a send does to the outside world: a request to the endpoint with the
payload `key`, `message`; a call of the completion callback `fn`, with one
argument (`fn(err)`) or two (`fn(null, body)`). -/
inductive Event where
  | request (key : JSValue) (message : Props)
  | callback (err : JSValue) (result : Option JSValue)

/-- Whether an event is a request. -/
def Event.isRequest : Event → Bool
  | .request _ _ => true
  | .callback _ _ => false

/-- Whether an event is a call of the completion callback. -/
def Event.isCallback : Event → Bool
  | .request _ _ => false
  | .callback _ _ => true

/-- A call with its handlers: how it ends (the Message when it returns, or the
exception), and what it did to the outside world until then. -/
structure Run where
  result : Except Err Message
  events : List Event

/-! ## `substitute` -/

/-- One line `if (o.k) o.k = subs(o.k, locals)` on a data object. -/
def substituteProp (subs : JSValue → Option Obj → Except Err JSValue) (locals : Option Obj)
    (k : String) (ps : Props) : Except Err Props :=
  if (getProp ps k).truthy then
    match subs (getProp ps k) locals with
    | .error e => .error e
    | .ok v => .ok (setProp ps k v)
  else .ok ps

/-- The body of the loop of `substitute` for one recipient. -/
def substituteEntry (subs : JSValue → Option Obj → Except Err JSValue) (locals : Option Obj) :
    JSValue → Except Err JSValue
  | .obj ps =>
    match substituteProp subs locals "name" ps with
    | .error e => .error e
    | .ok ps1 =>
      match substituteProp subs locals "email" ps1 with
      | .error e => .error e
      | .ok ps2 => .ok (.obj ps2)
  | v => .ok v

/-- The loop `for (var i = 0, to; to = attrs.to[i]; i++)` over an array: it ends
at the first element that is not truthy. -/
def substituteTo (subs : JSValue → Option Obj → Except Err JSValue) (locals : Option Obj) :
    List JSValue → Except Err (List JSValue)
  | [] => .ok []
  | x :: xs =>
    if x.truthy then
      match substituteEntry subs locals x with
      | .error e => .error e
      | .ok y =>
        match substituteTo subs locals xs with
        | .error e => .error e
        | .ok ys => .ok (y :: ys)
    else .ok (x :: xs)

/-- The same loop when `attrs.to` is a plain object: it reads the keys `0`, `1`,
... and ends at the first that is missing or not truthy, so it makes at most
one step more than there are properties, which `fuel` counts. -/
def substituteIndexed (subs : JSValue → Option Obj → Except Err JSValue) (locals : Option Obj) :
    Nat → Nat → Props → Except Err Props
  | 0, _, ps => .ok ps
  | fuel + 1, i, ps =>
    if (getProp ps (toString i)).truthy then
      match substituteEntry subs locals (getProp ps (toString i)) with
      | .error e => .error e
      | .ok y => substituteIndexed subs locals fuel (i + 1) (setProp ps (toString i) y)
    else .ok ps

/-- One line `if (attrs.k) attrs.k = subs(attrs.k, locals)` on `attrs`. -/
def substituteField (subs : JSValue → Option Obj → Except Err JSValue) (locals : Option Obj)
    (k : String) (proto : Proto) (own : Props) : Except Err Props :=
  if (lookup { own := own, proto := proto } k).truthy then
    match subs (lookup { own := own, proto := proto } k) locals with
    | .error e => .error e
    | .ok v => .ok (setProp own k v)
  else .ok own

/-- The three lines behind the loop of `substitute`. -/
def substituteFields (subs : JSValue → Option Obj → Except Err JSValue) (locals : Option Obj)
    (proto : Proto) (own : Props) : Except Err Props :=
  match substituteField subs locals "from_email" proto own with
  | .error e => .error e
  | .ok own1 =>
    match substituteField subs locals "from_name" proto own1 with
    | .error e => .error e
    | .ok own2 => substituteField subs locals "subject" proto own2

/-- The method `substitute`, which returns the own properties of `attrs`.  The
recipients are an own array in every state the operations produce.  When
`attrs.to` is `undefined` or `null` the loop throws; an indexed read on a
number, a boolean or a string finds nothing to change; the loop over
recipients that `attrs` inherits from its prototype is not modelled. -/
def Message.substitute (subs : JSValue → Option Obj → Except Err JSValue) (attrs : Obj)
    (locals : Option Obj) : Except Err Props :=
  if hasProp attrs.own "to" then
    match getProp attrs.own "to" with
    | .undefined => .error .typeError
    | .null => .error .typeError
    | .obj qs =>
      match substituteIndexed subs locals (qs.length + 1) 0 qs with
      | .error e => .error e
      | .ok qs' => substituteFields subs locals attrs.proto (setProp attrs.own "to" (.obj qs'))
    | .arr xs =>
      match substituteTo subs locals xs with
      | .error e => .error e
      | .ok ys => substituteFields subs locals attrs.proto (setProp attrs.own "to" (.arr ys))
    | _ => substituteFields subs locals attrs.proto attrs.own
  else
    match lookup attrs "to" with
    | .undefined => .error .typeError
    | .null => .error .typeError
    | _ => .error .unmodelled

/-! ## Dispatch -/

/-- The module-level `litmusTest` after `litmusTest.split(', ')`: both branches
leave the empty string, whose split is the array of one empty string. -/
def litmusTest : List String :=
  [""]

/-- The loop `litmusTest.forEach(...)` of `send`. -/
def addLitmus : List String → Message → Except Err Message
  | [], m => .ok m
  | email :: rest, m =>
    if email ≠ "" then
      match m.to (some (.str email)) with
      | .error e => .error e
      | .ok r => addLitmus rest r.1
    else addLitmus rest m

/-- The message of the error that `sendFinal` builds. -/
def statusMessage (status : Nat) : String :=
  "Mandrill response status " ++ toString status

/-- The local function `sendFinal` of `sendHTML`, with the handler of `end`. -/
def sendFinal (env : Env) (m : Message) : Message × List Event :=
  if (getProp m.opts "dryrun").truthy then (m, [])
  else if m.sent then (m, [])
  else
    let reply := env.post m.key m.attrs
    if reply.1.truthy then (m, [.request m.key m.attrs, .callback reply.1 none])
    else if reply.2.ok then
      ({ m with sent := true },
        [.request m.key m.attrs, .callback .null (some reply.2.body)])
    else
      (m, [.request m.key m.attrs,
        .callback (.obj [("message", .str (statusMessage reply.2.status)), ("data", reply.2.body)])
          none])

/-- The method `sendHTML`, called with the completion callback. -/
def Message.sendHTML (env : Env) (m : Message) : Run :=
  if m.plaintextTemplate.truthy then
    match env.render m.plaintextTemplate m.localsObj with
    | .threw e => { result := .error e, events := [] }
    | .called _ err out locals =>
      if err.truthy then
        { result := .ok { m with locals := locals.own, localsProto := locals.proto },
          events := [.callback err none] }
      else
        match toStringCall out with
        | .error e => { result := .error e, events := [] }
        | .ok text =>
          { result := .ok (sendFinal env { m with locals := locals.own, localsProto := locals.proto, attrs := setProp m.attrs "text" (.str text) }).1,
            events := (sendFinal env { m with locals := locals.own, localsProto := locals.proto, attrs := setProp m.attrs "text" (.str text) }).2 }
  else { result := .ok (sendFinal env m).1, events := (sendFinal env m).2 }

/-- The method `send`, called with the completion callback. -/
def Message.send (env : Env) (m : Message) : Run :=
  match Message.substitute env.subs m.attrsObj (some m.localsObj) with
  | .error e => { result := .error e, events := [] }
  | .ok attrs =>
    match addLitmus litmusTest { m with attrs := attrs } with
    | .error e => { result := .error e, events := [] }
    | .ok m1 =>
      if !(getProp m1.opts "template").truthy then m1.sendHTML env
      else
        match env.render (getProp m1.opts "template") m1.localsObj with
        | .threw e => { result := .error e, events := [] }
        | .called _ err out locals =>
          if err.truthy then
            { result := .ok { m1 with locals := locals.own, localsProto := locals.proto },
              events := [.callback err none] }
          else
            match toStringCall out with
            | .error e => { result := .error e, events := [] }
            | .ok html =>
              Message.sendHTML env { m1 with locals := locals.own, localsProto := locals.proto, attrs := setProp m1.attrs "html" (.str html) }

/-- The local function `sendFinal` when `sendHTML` was called with a data value
for `fn`: nothing happens in dry-run mode or on a sent Message; otherwise the
request goes out, and when the handler of `end` runs before the call returns,
each of its branches calls `fn`, which is not a function. -/
def sendFinalData (env : Env) (m : Message) : Outcome :=
  if (getProp m.opts "dryrun").truthy then .ok (m, .self)
  else if m.sent then .ok (m, .self)
  else if env.lateReply m.key m.attrs then .ok (m, .self)
  else .error .typeError

/-- The method `sendHTML` called with a data value for `fn`, up to its return.
A handler that runs later does its work after the return (see `Reachable`). -/
def Message.sendHTMLData (env : Env) (m : Message) : Outcome :=
  if m.plaintextTemplate.truthy then
    match env.render m.plaintextTemplate m.localsObj with
    | .threw e => .error e
    | .called late err out locals =>
      if late then .ok ({ m with locals := locals.own, localsProto := locals.proto }, .self)
      else if err.truthy then .error .typeError
      else
        match toStringCall out with
        | .error e => .error e
        | .ok text =>
          sendFinalData env { m with locals := locals.own, localsProto := locals.proto, attrs := setProp m.attrs "text" (.str text) }
  else sendFinalData env m

/-- The method `substitute` called with one data value: `attrs` is the value,
`locals` is missing.  The Message is not touched; the value comes back with the
substitutions made. -/
def Message.substituteData (env : Env) (v : JSValue) (m : Message) : Outcome :=
  match v with
  | .obj ps =>
    match Message.substitute env.subs { own := ps, proto := .objectPrototype } none with
    | .error e => .error e
    | .ok ps' => .ok (m, .value (.obj ps'))
  | _ => .error .typeError

/-! ## `set` -/

/-- The callable members a `Message` exposes: the methods of
`Message.prototype` and the functions inherited from `Object.prototype`. -/
inductive Member where
  | subject
  | html
  | template
  | dryrun
  | local
  | to
  | from
  | altText
  | tag
  | set
  | send
  | sendHTML
  | substitute
  | toString
  | construct
  | hasOwnProperty
  | isPrototypeOf
  | propertyIsEnumerable
  | toLocaleString
  | valueOf
  | defineGetter
  | defineSetter
  | lookupGetter
  | lookupSetter
  deriving DecidableEq

/-- The names of the callable members. -/
def memberTable : List (String × Member) :=
  [("subject", .subject), ("html", .html), ("template", .template), ("dryrun", .dryrun),
   ("local", .local), ("to", .to), ("from", .from), ("altText", .altText), ("tag", .tag),
   ("set", .set), ("send", .send), ("sendHTML", .sendHTML), ("substitute", .substitute),
   ("toString", .toString), ("constructor", .construct), ("hasOwnProperty", .hasOwnProperty),
   ("isPrototypeOf", .isPrototypeOf), ("propertyIsEnumerable", .propertyIsEnumerable),
   ("toLocaleString", .toLocaleString), ("valueOf", .valueOf),
   ("__defineGetter__", .defineGetter), ("__defineSetter__", .defineSetter),
   ("__lookupGetter__", .lookupGetter), ("__lookupSetter__", .lookupSetter)]

/-- The entry of a name in a table. -/
def findMember : List (String × Member) → String → Option Member
  | [], _ => none
  | (k', mem) :: rest, k => if k' = k then some mem else findMember rest k

/-- The member `this[k]` when `typeof this[k]` is `'function'`. -/
def member (k : String) : Option Member :=
  findMember memberTable k

/-- Whether a Message has the own property `k`: the fields the constructor
assigns, and `plaintextTemplate` once `altText` has assigned it. -/
def Message.hasOwn (m : Message) (k : String) : Bool :=
  decide (k ∈ ["opts", "attrs", "locals", "key", "sent"])
    || (decide (k = "plaintextTemplate") && decide (m.plaintextTemplate.typeof ≠ .undefined))

/-- The call `this[k](v)` with a data value `v`, for a member other than `set`.
The wrapper `yieldly` around `send` hands back a thunk when its last argument
is not a function, and the body does not run; `toString` renders `attrs` as
JSON; the constructor, called as a method without `email`, throws at
`email.key`; `__defineGetter__` and `__defineSetter__` throw for want of a
function; the other inherited functions only look at the Message. -/
def callMember (env : Env) (mem : Member) (v : JSValue) (m : Message) : Outcome :=
  match mem with
  | .subject => m.subject v
  | .html => m.html v
  | .template => m.template v
  | .dryrun => m.dryrun v
  | .local => m.local v .undefined
  | .to => m.to (some v)
  | .from => m.from v
  | .altText => m.altText v
  | .tag => m.tag v
  | .set => .ok (m, .self)
  | .send => .ok (m, .other)
  | .sendHTML => m.sendHTMLData env
  | .substitute => m.substituteData env v
  | .toString => .ok (m, .other)
  | .toLocaleString => .ok (m, .other)
  | .construct => .error .typeError
  | .hasOwnProperty =>
    match toPropertyKey v with
    | .error e => .error e
    | .ok k => .ok (m, .value (.bool (m.hasOwn k)))
  | .propertyIsEnumerable =>
    match toPropertyKey v with
    | .error e => .error e
    | .ok k => .ok (m, .value (.bool (m.hasOwn k)))
  | .isPrototypeOf => .ok (m, .value (.bool false))
  | .valueOf => .ok (m, .self)
  | .defineGetter => .error .typeError
  | .defineSetter => .error .typeError
  | .lookupGetter =>
    match toPropertyKey v with
    | .error e => .error e
    | .ok k => .ok (m, if k = "__proto__" then .other else .value .undefined)
  | .lookupSetter =>
    match toPropertyKey v with
    | .error e => .error e
    | .ok k => .ok (m, if k = "__proto__" then .other else .value .undefined)

/-- The assignment `this.attrs[k] = v`. -/
def Message.store (m : Message) (k : String) (v : JSValue) : Message :=
  { m with attrs := (assign m.attrsObj k v).own, attrsProto := (assign m.attrsObj k v).proto }

/-- The body of the loop of `set` for one key; `recur` is the call `this.set(v)`. -/
def setEntry (env : Env) (k : String) (v : JSValue) (recur : Message → Outcome) (m : Message) :
    Except Err Message :=
  match member k with
  | none => .ok (m.store k v)
  | some .set =>
    match recur m with
    | .error e => .error e
    | .ok r => .ok r.1
  | some mem =>
    match callMember env mem v m with
    | .error e => .error e
    | .ok r => .ok r.1

/-- The loop of `set` over the characters of a string, from index `i` on; the
call `this.set(c)` on a one-character string stores it under the key `0`. -/
def setChars (env : Env) : List Char → Nat → Message → Except Err Message
  | [], _, m => .ok m
  | c :: cs, i, m =>
    match setEntry env (toString i) (.str (String.singleton c))
        (fun m' => .ok (m'.store "0" (.str (String.singleton c)), .self)) m with
    | .error e => .error e
    | .ok m' => setChars env cs (i + 1) m'

mutual
/-- The method `set`. -/
def Message.set (env : Env) : JSValue → Message → Outcome
  | .obj ps, m =>
    match setProps env ps m with
    | .error e => .error e
    | .ok m' => .ok (m', .self)
  | .arr xs, m =>
    match setElems env xs 0 m with
    | .error e => .error e
    | .ok m' => .ok (m', .self)
  | .str s, m =>
    match setChars env s.data 0 m with
    | .error e => .error e
    | .ok m' => .ok (m', .self)
  | _, m => .ok (m, .self)
/-- The loop `for (var k in obj)` of `set` over the properties of an object. -/
def setProps (env : Env) : List (String × JSValue) → Message → Except Err Message
  | [], m => .ok m
  | (k, v) :: ps, m =>
    match setEntry env k v (Message.set env v) m with
    | .error e => .error e
    | .ok m' => setProps env ps m'
/-- The loop of `set` over the elements of an array, from index `i` on. -/
def setElems (env : Env) : List JSValue → Nat → Message → Except Err Message
  | [], _, m => .ok m
  | x :: xs, i, m =>
    match setEntry env (toString i) x (Message.set env x) m with
    | .error e => .error e
    | .ok m' => setElems env xs (i + 1) m'
end

/-- The call `this[k](v)` for every member. -/
def Message.call (env : Env) (mem : Member) (v : JSValue) (m : Message) : Outcome :=
  match mem with
  | .set => m.set env v
  | mem => callMember env mem v m

/-- The constructor `Message(attrs, email)`, with `key` the `key` of `email`. -/
def Message.new (env : Env) (attrs key : JSValue) : Except Err Message :=
  if attrs.truthy then
    match (Message.fresh key).set env attrs with
    | .error e => .error e
    | .ok r => .ok r.1
  else .ok (Message.fresh key)

/-! ## Sequences of public operations -/

/-- The public operations of a `Message`. -/
inductive Op where
  | to (arg : Option JSValue)
  | tag (v : JSValue)
  | from (v : JSValue)
  | subject (v : JSValue)
  | html (v : JSValue)
  | template (v : JSValue)
  | dryrun (v : JSValue)
  | altText (v : JSValue)
  | local (k v : JSValue)
  | set (bag : JSValue)
  | send

/-- The state after an operation that returns. -/
def Op.apply (env : Env) : Op → Message → Except Err Message
  | .to arg, m => (m.to arg).map Prod.fst
  | .tag v, m => (m.tag v).map Prod.fst
  | .from v, m => (m.from v).map Prod.fst
  | .subject v, m => (m.subject v).map Prod.fst
  | .html v, m => (m.html v).map Prod.fst
  | .template v, m => (m.template v).map Prod.fst
  | .dryrun v, m => (m.dryrun v).map Prod.fst
  | .altText v, m => (m.altText v).map Prod.fst
  | .local k v, m => (m.local k v).map Prod.fst
  | .set bag, m => (m.set env bag).map Prod.fst
  | .send, m => (m.send env).result

/-- The states reachable from construction (with or without an attribute bag) by
public operations that return, when every bag handed to the constructor or to
`set` satisfies `P`.  The collaborators may answer differently at every step.
The rules behind `step` are for collaborators that call their handlers late,
when other operations can come in between: `started` is the part of `send` up
to its return, the others are what a handler of `send` or of a dispatch started
through `set` writes: the rendered `html` or `text`, the locals as the engine
leaves them, the mark `sent`. -/
inductive Reachable (P : JSValue → Prop) : Message → Prop where
  | init (env : Env) (attrs key : JSValue) (m : Message) :
      P attrs → Message.new env attrs key = .ok m → Reachable P m
  | step (env : Env) (op : Op) (m m' : Message) :
      Reachable P m → (∀ bag, op = .set bag → P bag) → op.apply env m = .ok m' →
      Reachable P m'
  | started (env : Env) (m : Message) (attrs : Props) :
      Reachable P m → Message.substitute env.subs m.attrsObj (some m.localsObj) = .ok attrs →
      Reachable P { m with attrs := attrs }
  | lateHtml (m : Message) (html : String) :
      Reachable P m → Reachable P { m with attrs := setProp m.attrs "html" (.str html) }
  | lateText (m : Message) (text : String) :
      Reachable P m → Reachable P { m with attrs := setProp m.attrs "text" (.str text) }
  | lateLocals (m : Message) (locals : Obj) :
      Reachable P m → Reachable P { m with locals := locals.own, localsProto := locals.proto }
  | lateSent (m : Message) :
      Reachable P m → Reachable P { m with sent := true }

/-- Whether a value is a sequence (an array). -/
def JSValue.isSeq : JSValue → Bool
  | .arr _ => true
  | _ => false

/-! ## Notions for the statements -/

/-- The names under which a Message exposes a callable member. -/
def callableNames : List String :=
  ["subject", "html", "template", "dryrun", "local", "to", "from", "altText", "tag", "set",
   "send", "sendHTML", "substitute", "toString", "constructor", "hasOwnProperty",
   "isPrototypeOf", "propertyIsEnumerable", "toLocaleString", "valueOf", "__defineGetter__",
   "__defineSetter__", "__lookupGetter__", "__lookupSetter__"]

/-- Whether one of the indices of a string, from `i` on, is the key `tags`. -/
def charsHaveTagsKey : List Char → Nat → Bool
  | [], _ => false
  | _ :: cs, i => decide (toString i = "tags") || charsHaveTagsKey cs (i + 1)

mutual
/-- Whether a bag has the key `tags`, directly or in a bag under a `set` key. -/
def JSValue.hasTagsKey : JSValue → Bool
  | .obj ps => propsHaveTagsKey ps
  | .arr xs => elemsHaveTagsKey xs 0
  | .str s => charsHaveTagsKey s.data 0
  | _ => false
/-- The same for the properties of an object. -/
def propsHaveTagsKey : List (String × JSValue) → Bool
  | [] => false
  | (k, v) :: ps =>
    decide (k = "tags") || (decide (k = "set") && v.hasTagsKey) || propsHaveTagsKey ps
/-- The same for the elements of an array, from index `i` on. -/
def elemsHaveTagsKey : List JSValue → Nat → Bool
  | [], _ => false
  | x :: xs, i =>
    decide (toString i = "tags") || (decide (toString i = "set") && x.hasTagsKey)
      || elemsHaveTagsKey xs (i + 1)
end

/-- An error that the renderer has reported to its handler for the template or
for the plaintext template of a Message. -/
def ReportedBy (env : Env) (m : Message) (e : JSValue) : Prop :=
  ∃ tpl locals late out locals',
    (tpl = getProp m.opts "template" ∨ tpl = m.plaintextTemplate) ∧ tpl.truthy = true ∧
    env.render tpl locals = .called late e out locals' ∧ e.truthy = true

/-- A property of the own properties of `attrs` that every write of the
operations keeps, for writes by `set` under the keys in `A`. -/
structure Stable (Q : Props → Prop) (A : String → Prop) : Prop where
  store : ∀ ps k v, k ≠ "to" → A k → Q ps → Q (setProp ps k v)
  named : A "subject" ∧ A "html" ∧ A "text" ∧ A "from_email" ∧ A "from_name" ∧ A "0"
  recipients : ∀ ps x w v, Q ps → (hasProp ps "to" = true → x = getProp ps "to") →
    concatValue x w = .ok v → Q (setProp ps "to" v)
  substituted : ∀ ps ys, Q ps → Q (setProp ps "to" (.arr ys))
  substitutedObj : ∀ ps qs qs', Q ps → getProp ps "to" = .obj qs →
    Q (setProp ps "to" (.obj qs'))
  tags : ∀ ps x w v, Q ps → (hasProp ps "tags" = true → x = getProp ps "tags") →
    concatValue x w = .ok v → Q (setProp ps "tags" v)

/-- The elements of an array bag, from index `i` on, have keys in `A` and, under
the key `set`, a bag that satisfies `P`. -/
def ElemsOK (P : JSValue → Prop) (A : String → Prop) : List JSValue → Nat → Prop
  | [], _ => True
  | x :: xs, i => A (toString i) ∧ (toString i = "set" → P x) ∧ ElemsOK P A xs (i + 1)

/-- The indices of a string bag, from `i` on, are keys in `A`. -/
def CharsOK (A : String → Prop) : List Char → Nat → Prop
  | [], _ => True
  | _ :: cs, i => A (toString i) ∧ CharsOK A cs (i + 1)

/-- A condition on bags that hands down to the keys in `A` and to nested bags. -/
structure BagClosed (P : JSValue → Prop) (A : String → Prop) : Prop where
  head : ∀ k v ps, P (.obj ((k, v) :: ps)) → A k
  nested : ∀ k v ps, P (.obj ((k, v) :: ps)) → k = "set" → P v
  rest : ∀ k v ps, P (.obj ((k, v) :: ps)) → P (.obj ps)
  elems : ∀ xs, P (.arr xs) → ElemsOK P A xs 0
  chars : ∀ s, P (.str s) → CharsOK A s.data 0

/-- A text contains a space immediately followed by `<`, then one or more
characters other than `>`, then `>`. -/
def HasAddressForm (s : List Char) : Prop :=
  ∃ pre mid post, s = pre ++ ' ' :: '<' :: (mid ++ '>' :: post) ∧ mid ≠ [] ∧ '>' ∉ mid

/-- What a run of `sendHTML` or `send` on `m` is: it throws before anything has
happened outside; or the renderer has reported `e` and the callback gets it;
or the pipeline arrives at `sendFinal` with a Message `m0` that agrees with `m`
on the options, on `sent` and on the key. -/
def RunShape (env : Env) (m : Message) (r : Run) : Prop :=
  (r.events = [] ∧ ∃ e, r.result = .error e) ∨
  (∃ e m0, ReportedBy env m e ∧ r.events = [.callback e none] ∧ r.result = .ok m0 ∧
    m0.sent = m.sent ∧ (∀ Q A, Stable Q A → Q m.attrs → Q m0.attrs)) ∨
  (∃ m0 : Message, m0.opts = m.opts ∧ m0.sent = m.sent ∧ m0.key = m.key ∧
    (∀ Q A, Stable Q A → Q m.attrs → Q m0.attrs) ∧
    r.result = .ok (sendFinal env m0).1 ∧ r.events = (sendFinal env m0).2)

/-- A renderer that reports an error, a transport that answers 200. -/
def failingRenderEnv : Env where
  subs := fun v _ => .ok v
  render := fun _ locals => .called false (.obj [("message", .str "ENOENT")]) .undefined locals
  post := fun _ _ => (.null, { ok := true, status := 200, body := .obj [("status", .str "sent")] })
  lateReply := fun _ _ => false

/-- A renderer that succeeds, a transport that answers 500. -/
def rejectingEnv : Env where
  subs := fun v _ => .ok v
  render := fun _ locals => .called false .null (.str "<p>Hi</p>") locals
  post := fun _ _ => (.null, { ok := false, status := 500, body := .obj [("status", .str "error")] })
  lateReply := fun _ _ => false

/-- A renderer that succeeds, a transport that answers 200. -/
def acceptingEnv : Env where
  subs := fun v _ => .ok v
  render := fun _ locals => .called false .null (.str "<p>Hi</p>") locals
  post := fun _ _ => (.null, { ok := true, status := 200, body := .obj [("status", .str "sent")] })
  lateReply := fun _ _ => false

/-- A renderer that throws before it returns, as `resolveTemplate` does on a path
without a known extension. -/
def throwingRenderEnv : Env where
  subs := fun v _ => .ok v
  render := fun _ _ => .threw .typeError
  post := fun _ _ => (.null, { ok := true, status := 200, body := .obj [("status", .str "sent")] })
  lateReply := fun _ _ => true

/-! # Theorems -/

/-! ## The matcher -/

theorem greedy_sound {α : Type} (cs : CharSet) (k : List Char → Option α) :
    ∀ (s : List Char) (r : α), greedy cs s k = some r →
      ∃ a b, s = a ++ b ∧ (∀ c ∈ a, cs.test c = true) ∧ k b = some r := by
  intro s
  induction s with
  | nil =>
    intro r h
    exact ⟨[], [], rfl, by simp, h⟩
  | cons c rest ih =>
    intro r h
    unfold greedy at h
    by_cases hc : cs.test c = true
    · rw [if_pos hc] at h
      cases hg : greedy cs rest k with
      | some r' =>
        rw [hg] at h
        obtain ⟨a, b, hab, ha, hk⟩ := ih r' hg
        refine ⟨c :: a, b, by rw [hab]; rfl, ?_, ?_⟩
        · intro x hx
          rcases List.mem_cons.mp hx with rfl | hx
          · exact hc
          · exact ha x hx
        · simpa using h ▸ hk
      | none =>
        rw [hg] at h
        exact ⟨[], c :: rest, rfl, by simp, h⟩
    · rw [if_neg hc] at h
      exact ⟨[], c :: rest, rfl, by simp, h⟩

theorem greedy_none {α : Type} (cs : CharSet) (k : List Char → Option α) :
    ∀ (s : List Char), greedy cs s k = none →
      ∀ a b, s = a ++ b → (∀ c ∈ a, cs.test c = true) → k b = none := by
  intro s
  induction s with
  | nil =>
    intro h a b hab _
    have hb : b = [] := (List.append_eq_nil.mp hab.symm).2
    subst hb
    simpa [greedy] using h
  | cons c rest ih =>
    intro h a b hab ha
    unfold greedy at h
    by_cases hc : cs.test c = true
    · rw [if_pos hc] at h
      cases hg : greedy cs rest k with
      | some r' => rw [hg] at h; cases h
      | none =>
        rw [hg] at h
        cases a with
        | nil => simp at hab; rw [← hab]; exact h
        | cons x a' =>
          simp at hab
          exact ih hg a' b hab.2 (fun y hy => ha y (List.mem_cons_of_mem _ hy))
    · rw [if_neg hc] at h
      cases a with
      | nil => simp at hab; rw [← hab]; exact h
      | cons x a' =>
        simp at hab
        have := ha x (List.mem_cons_self _ _)
        rw [← hab.1] at this
        exact absurd this hc

theorem greedy_longest {α : Type} (cs : CharSet) (k : List Char → Option α) (r : α) :
    ∀ (a b : List Char), (∀ c ∈ a, cs.test c = true) → k b = some r →
      (∀ a' b', a' ≠ [] → b = a' ++ b' → (∀ c ∈ a', cs.test c = true) → k b' = none) →
      greedy cs (a ++ b) k = some r := by
  intro a
  induction a with
  | nil =>
    intro b _ hk hlong
    cases b with
    | nil => simpa [greedy] using hk
    | cons c rest =>
      simp only [List.nil_append]
      unfold greedy
      by_cases hc : cs.test c = true
      · rw [if_pos hc]
        cases hg : greedy cs rest k with
        | none => simpa using hk
        | some r' =>
          exfalso
          obtain ⟨a1, b1, hab, ha1, hk1⟩ := greedy_sound cs k rest r' hg
          have := hlong (c :: a1) b1 (by simp) (by rw [hab]; rfl)
            (fun x hx => by
              rcases List.mem_cons.mp hx with rfl | hx
              · exact hc
              · exact ha1 x hx)
          rw [hk1] at this
          cases this
      · rw [if_neg hc]; exact hk
  | cons c a ih =>
    intro b ha hk hlong
    simp only [List.cons_append]
    unfold greedy
    rw [if_pos (ha c (List.mem_cons_self _ _))]
    rw [ih b (fun x hx => ha x (List.mem_cons_of_mem _ hx)) hk hlong]

theorem take_length_sub (a b : List Char) :
    (a ++ b).take ((a ++ b).length - b.length) = a := by
  simp

theorem tail_complete (addr post : List Char) (caps : Caps) (hne : addr ≠ [])
    (hgt : '>' ∉ addr) :
    addressTail.run (' ' :: '<' :: (addr ++ '>' :: post)) caps (fun _ c => some c)
      = some ((2, addr) :: caps) := by
  cases addr with
  | nil => exact absurd rfl hne
  | cons z a =>
    have hz : z ≠ '>' := fun h => hgt (h ▸ List.mem_cons_self _ _)
    have ha : ∀ c ∈ a, (CharSet.except '>').test c = true := by
      intro c hc
      have : c ≠ '>' := fun h => hgt (h ▸ List.mem_cons_of_mem _ hc)
      simp [CharSet.test, this]
    simp only [addressTail, Regex.run, CharSet.test, decide_True, if_true, List.cons_append]
    simp only [hz, decide_False, Bool.not_false, if_true]
    apply greedy_longest
    · exact ha
    · have := take_length_sub (z :: a) ('>' :: post)
      simp only [List.cons_append] at this
      simp only [Regex.run, CharSet.test, decide_True, if_true, this]
    · intro a' b' hne' hab htest
      cases a' with
      | nil => exact absurd rfl hne'
      | cons x a'' =>
        simp only [List.cons_append, List.cons.injEq] at hab
        have := htest x (List.mem_cons_self _ _)
        rw [← hab.1] at this
        simp [CharSet.test] at this

theorem tail_sound (b : List Char) (caps r : Caps)
    (h : addressTail.run b caps (fun _ c => some c) = some r) :
    ∃ addr post, b = ' ' :: '<' :: (addr ++ '>' :: post) ∧ addr ≠ [] ∧ '>' ∉ addr ∧
      r = (2, addr) :: caps := by
  match b, h with
  | [], h => simp [addressTail, Regex.run] at h
  | [_], h => simp [addressTail, Regex.run] at h
  | [_, _], h => simp [addressTail, Regex.run] at h
  | x :: y :: z :: b3, h =>
    simp only [addressTail, Regex.run, CharSet.test] at h
    by_cases hx : x = ' '
    · by_cases hy : y = '<'
      · by_cases hz : z = '>'
        · simp [hx, hy, hz] at h
        · simp only [hx, hy, hz, decide_True, decide_False, Bool.not_false, if_true] at h
          obtain ⟨a, b', hab, ha, hk⟩ := greedy_sound _ _ _ _ h
          cases b' with
          | nil => simp [Regex.run] at hk
          | cons w post =>
            simp only [Regex.run, CharSet.test] at hk
            by_cases hw : w = '>'
            · subst hw
              simp only [decide_True, if_true, Option.some.injEq] at hk
              refine ⟨z :: a, post, ?_, by simp, ?_, ?_⟩
              · simp [hx, hy, hab]
              · intro hmem
                rcases List.mem_cons.mp hmem with h1 | h1
                · exact hz h1.symm
                · have := ha _ h1
                  simp [CharSet.test] at this
              · rw [← hk, hab]
                have := take_length_sub (z :: a) ('>' :: post)
                simp only [List.cons_append] at this
                rw [this]
            · simp [hw] at hk
      · simp [hx, hy] at h
    · simp [hx] at h

theorem matchAt_addressPattern (s : List Char) :
    addressPattern.matchAt s =
      greedy .dot s (fun rest =>
        addressTail.run rest [(1, s.take (s.length - rest.length))] (fun _ c => some c)) := by
  simp [Regex.matchAt, addressPattern, Regex.run]

theorem exec_of_matchAt (re : Regex) (s : List Char) (r : Caps) (h : re.matchAt s = some r) :
    re.exec s = some r := by
  cases s with
  | nil => simpa [Regex.exec] using h
  | cons c rest => simp [Regex.exec, h]

theorem exec_none (re : Regex) :
    ∀ s : List Char, re.exec s = none → ∀ p t, s = p ++ t → re.matchAt t = none := by
  intro s
  induction s with
  | nil =>
    intro h p t hpt
    have ht : t = [] := (List.append_eq_nil.mp hpt.symm).2
    subst ht
    simpa [Regex.exec] using h
  | cons c rest ih =>
    intro h p t hpt
    unfold Regex.exec at h
    cases hm : re.matchAt (c :: rest) with
    | some caps => rw [hm] at h; cases h
    | none =>
      rw [hm] at h
      cases p with
      | nil => simp at hpt; rw [← hpt]; exact hm
      | cons x p' =>
        simp at hpt
        exact ih h p' t hpt.2

theorem exec_some (re : Regex) :
    ∀ (s : List Char) (r : Caps), re.exec s = some r →
      ∃ p t, s = p ++ t ∧ re.matchAt t = some r := by
  intro s
  induction s with
  | nil =>
    intro r h
    exact ⟨[], [], rfl, by simpa [Regex.exec] using h⟩
  | cons c rest ih =>
    intro r h
    unfold Regex.exec at h
    cases hm : re.matchAt (c :: rest) with
    | some caps =>
      rw [hm] at h
      exact ⟨[], c :: rest, rfl, by simpa [hm] using h⟩
    | none =>
      rw [hm] at h
      obtain ⟨p, t, hpt, ht⟩ := ih r h
      exact ⟨c :: p, t, by rw [hpt]; rfl, ht⟩

theorem exec_addressPattern_none_iff (s : List Char) :
    addressPattern.exec s = none ↔ ¬ HasAddressForm s := by
  constructor
  · intro h ⟨pre, mid, post, hs, hne, hgt⟩
    have hm := exec_none _ s h pre (' ' :: '<' :: (mid ++ '>' :: post)) hs
    rw [matchAt_addressPattern] at hm
    have := greedy_none _ _ _ hm [] (' ' :: '<' :: (mid ++ '>' :: post)) rfl (by simp)
    rw [tail_complete mid post _ hne hgt] at this
    cases this
  · intro h
    cases he : addressPattern.exec s with
    | none => rfl
    | some r =>
      exfalso
      obtain ⟨p, t, hpt, ht⟩ := exec_some _ s r he
      rw [matchAt_addressPattern] at ht
      obtain ⟨a, b, hab, _, hk⟩ := greedy_sound _ _ _ _ ht
      obtain ⟨addr, post, hb, hne, hgt, _⟩ := tail_sound _ _ _ hk
      exact h ⟨p ++ a, addr, post, by rw [hpt, hab, hb]; simp, hne, hgt⟩

theorem indexOfFrom_not_mem (c : Char) :
    ∀ (s : List Char) (i : Nat), c ∉ s → indexOfFrom c s i = -1 := by
  intro s
  induction s with
  | nil => intro i _; rfl
  | cons x xs ih =>
    intro i h
    have hx : x ≠ c := fun e => h (e ▸ List.mem_cons_self _ _)
    simp only [indexOfFrom, hx, if_false]
    exact ih (i + 1) (fun hm => h (List.mem_cons_of_mem _ hm))

theorem indexOfFrom_mem (c : Char) :
    ∀ (s : List Char) (i : Nat), c ∈ s → (i : Int) ≤ indexOfFrom c s i := by
  intro s
  induction s with
  | nil => intro i h; cases h
  | cons x xs ih =>
    intro i h
    by_cases hx : x = c
    · simp [indexOfFrom, hx]
    · simp only [indexOfFrom, hx, if_false]
      have hm : c ∈ xs := by
        rcases List.mem_cons.mp h with h1 | h1
        · exact absurd h1.symm hx
        · exact h1
      have := ih (i + 1) hm
      omega

theorem bitNot_indexOf_ne_zero_iff (s : String) (c : Char) :
    bitNot (indexOf s c) ≠ 0 ↔ c ∈ s.data := by
  unfold bitNot indexOf
  constructor
  · intro h
    by_contra hc
    rw [indexOfFrom_not_mem c s.data 0 hc] at h
    exact h (by decide)
  · intro h
    have := indexOfFrom_mem c s.data 0 h
    omega

theorem parse_str_no_lt (s : String) (h : '<' ∉ s.data) :
    parse (.str s) = .ok (.obj [("email", .str s)]) := by
  have hb : ¬ bitNot (indexOf s '<') ≠ 0 := fun hb => h ((bitNot_indexOf_ne_zero_iff s '<').mp hb)
  simp only [parse, JSValue.typeof, hb, if_false]
  simp

theorem parse_str_lt (s : String) (h : '<' ∈ s.data) :
    parse (.str s) =
      match addressPattern.exec s.data with
      | none => .error .typeError
      | some caps => .ok (.obj [("name", capture caps 1), ("email", capture caps 2)]) := by
  have hb : bitNot (indexOf s '<') ≠ 0 := (bitNot_indexOf_ne_zero_iff s '<').mpr h
  simp only [parse, JSValue.typeof, hb, if_true]
  simp [hb]

theorem parse_str_error_iff (s : String) :
    (∃ e, parse (.str s) = .error e) ↔ ('<' ∈ s.data ∧ ¬ HasAddressForm s.data) := by
  by_cases h : '<' ∈ s.data
  · rw [parse_str_lt s h, ← exec_addressPattern_none_iff]
    cases he : addressPattern.exec s.data with
    | none => simp [h]
    | some caps => simp
  · rw [parse_str_no_lt s h]
    simp [h]

theorem matchAt_display_name (name addr : List Char)
    (hname : ∀ c ∈ name, isLineTerminator c = false)
    (hne : addr ≠ []) (hlt : '<' ∉ addr) (hgt : '>' ∉ addr) :
    addressPattern.matchAt (name ++ ' ' :: '<' :: (addr ++ ['>']))
      = some [(2, addr), (1, name)] := by
  rw [matchAt_addressPattern]
  apply greedy_longest
  · intro c hc
    simp [CharSet.test, hname c hc]
  · rw [take_length_sub]
    exact tail_complete addr [] _ hne hgt
  · intro a' b' hne' hab _
    cases hrun : addressTail.run b'
        [(1, (name ++ ' ' :: '<' :: (addr ++ ['>'])).take
          ((name ++ ' ' :: '<' :: (addr ++ ['>'])).length - b'.length))]
        (fun _ c => some c) with
    | none => rfl
    | some r =>
      exfalso
      obtain ⟨mid, post, hb, _, _, _⟩ := tail_sound _ _ _ hrun
      subst hb
      match a', hne' with
      | [x], _ =>
        simp only [List.cons_append, List.nil_append, List.cons.injEq] at hab
        exact absurd hab.2.1 (by decide)
      | x :: y :: a3, _ =>
        simp only [List.cons_append, List.cons.injEq] at hab
        have hmem : '<' ∈ addr ++ ['>'] := by
          rw [hab.2.2]
          simp
        rcases List.mem_append.mp hmem with h1 | h1
        · exact hlt h1
        · simp at h1

/-- C1: for every name without a line terminator and every non-empty address
without `<` and `>`, `parse(name + " <" + addr + ">")` returns exactly the record
with `name` equal to the name and `email` equal to the address. -/
theorem parse_display_name (name addr : String)
    (hname : ∀ c ∈ name.data, isLineTerminator c = false)
    (hne : addr.data ≠ []) (hlt : '<' ∉ addr.data) (hgt : '>' ∉ addr.data) :
    parse (.str (name ++ " <" ++ addr ++ ">"))
      = .ok (.obj [("name", .str name), ("email", .str addr)]) := by
  have hdata : (name ++ " <" ++ addr ++ ">").data
      = name.data ++ ' ' :: '<' :: (addr.data ++ ['>']) := by
    simp [String.data_append]
  have hmem : '<' ∈ (name ++ " <" ++ addr ++ ">").data := by
    rw [hdata]; simp
  rw [parse_str_lt _ hmem, hdata,
    exec_of_matchAt _ _ _ (matchAt_display_name name.data addr.data hname hne hlt hgt)]
  simp [capture, List.lookup]

/-- C1, at the input `"Name <a@b.com>"`. -/
theorem parse_display_name_witness :
    (∀ c ∈ "Name".data, isLineTerminator c = false) ∧ "a@b.com".data ≠ [] ∧
    '<' ∉ "a@b.com".data ∧ '>' ∉ "a@b.com".data ∧
    parse (.str ("Name" ++ " <" ++ "a@b.com" ++ ">"))
      = .ok (.obj [("name", .str "Name"), ("email", .str "a@b.com")]) :=
  ⟨by decide, by decide, by decide, by decide,
    parse_display_name "Name" "a@b.com" (by decide) (by decide) (by decide) (by decide)⟩

/-- C9: for every string without the character `<`, valid address or not, `parse`
returns a record whose `email` is the string itself and which has no `name` key. -/
theorem parse_plain_string (s : String) (h : '<' ∉ s.data) :
    ∃ ps, parse (.str s) = .ok (.obj ps) ∧ ps = [("email", .str s)] ∧
      getProp ps "email" = .str s ∧ hasProp ps "name" = false := by
  refine ⟨[("email", .str s)], parse_str_no_lt s h, rfl, ?_, ?_⟩
  · simp [getProp]
  · simp [hasProp]

/-- C9, at a string that is no address and contains `>`. -/
theorem parse_plain_string_witness :
    '<' ∉ "not> an address".data ∧
    ∃ ps, parse (.str "not> an address") = .ok (.obj ps) ∧
      ps = [("email", .str "not> an address")] ∧
      getProp ps "email" = .str "not> an address" ∧ hasProp ps "name" = false :=
  ⟨by decide, parse_plain_string "not> an address" (by decide)⟩

/-- C10: `parse` throws on a string exactly when the string contains `<` and no
occurrence of a space, `<`, one or more characters other than `>`, and `>`; so it
throws on `"<a@b.com>"`, `"Name <>"` and `"a<b"`, and `to` and `from` throw on every
string on which `parse` throws, returning no Message. -/
theorem parse_throws_iff (s : String) (m : Message) :
    ((∃ e, parse (.str s) = .error e) ↔ ('<' ∈ s.data ∧ ¬ HasAddressForm s.data)) ∧
    ((∃ e, parse (.str s) = .error e) →
      (∃ e, m.to (some (.str s)) = .error e) ∧ (∃ e, m.from (.str s) = .error e)) ∧
    parse (.str "<a@b.com>") = .error .typeError ∧
    parse (.str "Name <>") = .error .typeError ∧
    parse (.str "a<b") = .error .typeError := by
  refine ⟨parse_str_error_iff s, ?_, rfl, rfl, rfl⟩
  rintro ⟨e, he⟩
  constructor
  · exact ⟨e, by simp [Message.to, JSValue.typeof, mapParse, he]⟩
  · exact ⟨e, by simp [Message.from, he]⟩

/-- C10, at the string `"<a@b.com>"` and a fresh Message. -/
theorem parse_throws_iff_witness :
    ((∃ e, parse (.str "<a@b.com>") = .error e) ↔
      ('<' ∈ "<a@b.com>".data ∧ ¬ HasAddressForm "<a@b.com>".data)) ∧
    ((∃ e, parse (.str "<a@b.com>") = .error e) →
      (∃ e, (Message.fresh .null).to (some (.str "<a@b.com>")) = .error e) ∧
      (∃ e, (Message.fresh .null).from (.str "<a@b.com>") = .error e)) ∧
    parse (.str "<a@b.com>") = .error .typeError ∧
    parse (.str "Name <>") = .error .typeError ∧
    parse (.str "a<b") = .error .typeError :=
  parse_throws_iff "<a@b.com>" (Message.fresh .null)

/-! ## Property lists -/

theorem hasProp_replaceProp (ps : Props) (k k' : String) (v : JSValue) :
    hasProp (replaceProp ps k v) k' = hasProp ps k' := by
  induction ps with
  | nil => rfl
  | cons p ps ih =>
    obtain ⟨k0, v0⟩ := p
    by_cases h0 : k0 = k
    · subst h0
      simp [replaceProp, hasProp]
    · simp [replaceProp, hasProp, h0, ih]

theorem getProp_replaceProp_same (ps : Props) (k : String) (v : JSValue)
    (h : hasProp ps k = true) : getProp (replaceProp ps k v) k = v := by
  induction ps with
  | nil => simp [hasProp] at h
  | cons p ps ih =>
    obtain ⟨k0, v0⟩ := p
    by_cases h0 : k0 = k
    · simp [replaceProp, getProp, h0]
    · simp only [hasProp, h0, if_false] at h
      simp [replaceProp, getProp, h0, ih h]

theorem getProp_replaceProp_ne (ps : Props) (k k' : String) (v : JSValue) (h : k' ≠ k) :
    getProp (replaceProp ps k v) k' = getProp ps k' := by
  induction ps with
  | nil => rfl
  | cons p ps ih =>
    obtain ⟨k0, v0⟩ := p
    by_cases h0 : k0 = k
    · subst h0
      simp [replaceProp, getProp, Ne.symm h]
    · by_cases h1 : k0 = k'
      · subst h1
        simp [replaceProp, getProp, h0]
      · simp [replaceProp, getProp, h0, h1, ih]

theorem hasProp_insertIndexed (ps : Props) (n : Nat) (k k' : String) (v : JSValue) :
    hasProp (insertIndexed ps n k v) k' = (decide (k = k') || hasProp ps k') := by
  induction ps with
  | nil => by_cases h : k = k' <;> simp [insertIndexed, hasProp, h]
  | cons p ps ih =>
    obtain ⟨k0, v0⟩ := p
    simp only [insertIndexed]
    split
    · split
      · by_cases h0 : k0 = k'
        · simp [hasProp, h0]
        · simp [hasProp, h0, ih]
      · by_cases h : k = k' <;> simp [hasProp, h]
    · by_cases h : k = k' <;> simp [hasProp, h]

theorem getProp_insertIndexed_same (ps : Props) (n : Nat) (k : String) (v : JSValue)
    (h : hasProp ps k = false) : getProp (insertIndexed ps n k v) k = v := by
  induction ps with
  | nil => simp [insertIndexed, getProp]
  | cons p ps ih =>
    obtain ⟨k0, v0⟩ := p
    have h0 : k0 ≠ k := by
      intro e
      simp [hasProp, e] at h
    simp only [hasProp, h0, if_false] at h
    simp only [insertIndexed]
    split
    · split
      · simp [getProp, h0, ih h]
      · simp [getProp]
    · simp [getProp]

theorem getProp_insertIndexed_ne (ps : Props) (n : Nat) (k k' : String) (v : JSValue)
    (h : k' ≠ k) : getProp (insertIndexed ps n k v) k' = getProp ps k' := by
  induction ps with
  | nil => simp [insertIndexed, getProp, Ne.symm h]
  | cons p ps ih =>
    obtain ⟨k0, v0⟩ := p
    simp only [insertIndexed]
    split
    · split
      · by_cases h1 : k0 = k'
        · simp [getProp, h1]
        · simp [getProp, h1, ih]
      · simp [getProp, Ne.symm h]
    · simp [getProp, Ne.symm h]

theorem hasProp_append (ps : Props) (k k' : String) (v : JSValue) :
    hasProp (ps ++ [(k, v)]) k' = (hasProp ps k' || decide (k = k')) := by
  induction ps with
  | nil => by_cases h : k = k' <;> simp [hasProp, h]
  | cons p ps ih =>
    obtain ⟨k0, v0⟩ := p
    by_cases h0 : k0 = k'
    · simp [hasProp, h0]
    · simp [hasProp, h0, ih]

theorem getProp_append_same (ps : Props) (k : String) (v : JSValue)
    (h : hasProp ps k = false) : getProp (ps ++ [(k, v)]) k = v := by
  induction ps with
  | nil => simp [getProp]
  | cons p ps ih =>
    obtain ⟨k0, v0⟩ := p
    have h0 : k0 ≠ k := by
      intro e
      simp [hasProp, e] at h
    simp only [hasProp, h0, if_false] at h
    simp [getProp, h0, ih h]

theorem getProp_append_ne (ps : Props) (k k' : String) (v : JSValue) (h : k' ≠ k) :
    getProp (ps ++ [(k, v)]) k' = getProp ps k' := by
  induction ps with
  | nil => simp [getProp, Ne.symm h]
  | cons p ps ih =>
    obtain ⟨k0, v0⟩ := p
    by_cases h1 : k0 = k'
    · simp [getProp, h1]
    · simp [getProp, h1, ih]

theorem getProp_setProp_same (ps : Props) (k : String) (v : JSValue) :
    getProp (setProp ps k v) k = v := by
  unfold setProp
  cases h : hasProp ps k with
  | true => simp [getProp_replaceProp_same ps k v h]
  | false =>
    simp only [Bool.false_eq_true, if_false]
    split
    · exact getProp_insertIndexed_same ps _ k v h
    · exact getProp_append_same ps k v h

theorem getProp_setProp_ne (ps : Props) (k k' : String) (v : JSValue) (h : k' ≠ k) :
    getProp (setProp ps k v) k' = getProp ps k' := by
  unfold setProp
  split
  · exact getProp_replaceProp_ne ps k k' v h
  · split
    · exact getProp_insertIndexed_ne ps _ k k' v h
    · exact getProp_append_ne ps k k' v h

theorem hasProp_setProp_same (ps : Props) (k : String) (v : JSValue) :
    hasProp (setProp ps k v) k = true := by
  unfold setProp
  cases h : hasProp ps k with
  | true => simp [hasProp_replaceProp, h]
  | false =>
    simp only [Bool.false_eq_true, if_false]
    split
    · simp [hasProp_insertIndexed]
    · simp [hasProp_append]

theorem hasProp_setProp_ne (ps : Props) (k k' : String) (v : JSValue) (h : k' ≠ k) :
    hasProp (setProp ps k v) k' = hasProp ps k' := by
  unfold setProp
  split
  · exact hasProp_replaceProp ps k k' v
  · split
    · simp [hasProp_insertIndexed, Ne.symm h]
    · simp [hasProp_append, Ne.symm h]

theorem hasProp_setProp_mono (ps : Props) (k k' : String) (v : JSValue)
    (h : hasProp ps k' = true) : hasProp (setProp ps k v) k' = true := by
  by_cases hk : k' = k
  · rw [hk]; exact hasProp_setProp_same ps k v
  · rw [hasProp_setProp_ne ps k k' v hk]; exact h

theorem hasProp_iff_mem (ps : Props) (k : String) :
    hasProp ps k = true ↔ k ∈ ps.map Prod.fst := by
  induction ps with
  | nil => simp [hasProp]
  | cons p ps ih =>
    obtain ⟨k0, v0⟩ := p
    by_cases h0 : k0 = k
    · simp [hasProp, h0]
    · simp [hasProp, h0, ih, Ne.symm h0]

theorem hasProp_of_getProp (ps : Props) (k : String) (h : getProp ps k ≠ .undefined) :
    hasProp ps k = true := by
  induction ps with
  | nil => exact absurd rfl h
  | cons p ps ih =>
    obtain ⟨k0, v0⟩ := p
    by_cases h0 : k0 = k
    · simp [hasProp, h0]
    · simp only [getProp, h0, if_false] at h
      simp [hasProp, h0, ih h]

theorem lookup_own (o : Obj) (k : String) (h : hasProp o.own k = true) :
    lookup o k = getProp o.own k := by
  simp [lookup, h]

theorem assign_ne (o : Obj) (k : String) (v : JSValue) (h : k ≠ "__proto__") :
    assign o k v = { o with own := setProp o.own k v } := by
  simp [assign, h]

theorem assign_own (o : Obj) (k : String) (v : JSValue) :
    (assign o k v).own = o.own ∨ (assign o k v).own = setProp o.own k v := by
  unfold assign
  split
  · exact Or.inl rfl
  · exact Or.inr rfl

/-! ## `to` -/

theorem mapParse_of_forall₂ (xs ys : List JSValue)
    (h : List.Forall₂ (fun x y => parse x = .ok y) xs ys) : mapParse xs = .ok ys := by
  induction h with
  | nil => rfl
  | cons hxy _ ih => simp [mapParse, hxy, ih]

/-- C2: `to` appends and keeps the order: on a Message with recipients `r`, `to(xs)`
leaves `attrs.to` equal to `r` followed by the parsed entries of `xs`, a single
string counts as the list of that string, two calls on a fresh Message give the
two records in call order, and `to()` changes nothing. -/
theorem to_appends (m : Message) (r : List JSValue) (hr : getProp m.attrs "to" = .arr r) :
    (∀ xs ys, List.Forall₂ (fun x y => parse x = .ok y) xs ys →
      m.to (some (.arr xs))
        = .ok ({ m with attrs := setProp m.attrs "to" (.arr (r ++ ys)) }, .self) ∧
      getProp (setProp m.attrs "to" (.arr (r ++ ys))) "to" = .arr (r ++ ys)) ∧
    (∀ s y, parse (.str s) = .ok y →
      m.to (some (.str s)) = m.to (some (.arr [.str s])) ∧
      m.to (some (.str s))
        = .ok ({ m with attrs := setProp m.attrs "to" (.arr (r ++ [y])) }, .self)) ∧
    m.to none = .ok (m, .self) ∧
    (∀ env key, ∃ m0 m1 m2, Message.new env .undefined key = .ok m0 ∧
      m0.to (some (.str "a@x.com")) = .ok (m1, .self) ∧
      m1.to (some (.str "b@x.com")) = .ok (m2, .self) ∧
      getProp m2.attrs "to"
        = .arr [.obj [("email", .str "a@x.com")], .obj [("email", .str "b@x.com")]]) := by
  have hown : lookup m.attrsObj "to" = .arr r := by
    rw [lookup_own _ _ (hasProp_of_getProp m.attrs "to" (by rw [hr]; simp))]
    exact hr
  have harr : ∀ xs ys, List.Forall₂ (fun x y => parse x = .ok y) xs ys →
      m.to (some (.arr xs))
        = .ok ({ m with attrs := setProp m.attrs "to" (.arr (r ++ ys)) }, .self) := by
    intro xs ys h
    simp [Message.to, JSValue.typeof, mapParse_of_forall₂ xs ys h, hown, concatValue, arrConcat]
  refine ⟨fun xs ys h => ⟨harr xs ys h, getProp_setProp_same _ _ _⟩, ?_, rfl, ?_⟩
  · intro s y hy
    have h1 : m.to (some (.str s)) = m.to (some (.arr [.str s])) := by
      simp [Message.to, JSValue.typeof]
    exact ⟨h1, h1 ▸ harr [.str s] [y] (List.Forall₂.cons hy List.Forall₂.nil)⟩
  · intro env key
    exact ⟨_, _, _, rfl, rfl, rfl, rfl⟩

/-- C2, on a Message that already has one recipient, which adds a display-name
address and a structured entry. -/
theorem to_appends_witness :
    getProp ({ Message.fresh .null with
        attrs := [("to", .arr [.obj [("email", .str "z@x.com")]])] } : Message).attrs "to"
      = .arr [.obj [("email", .str "z@x.com")]] ∧
    (({ Message.fresh .null with
        attrs := [("to", .arr [.obj [("email", .str "z@x.com")]])] } : Message).to
          (some (.arr [.str "A <a@x.com>", .obj [("email", .str "b@x.com")]]))).map
        (fun p => getProp p.1.attrs "to")
      = .ok (.arr [.obj [("email", .str "z@x.com")],
          .obj [("name", .str "A"), ("email", .str "a@x.com")],
          .obj [("email", .str "b@x.com")]]) := by
  refine ⟨rfl, ?_⟩
  have h := (to_appends ({ Message.fresh .null with
      attrs := [("to", .arr [.obj [("email", .str "z@x.com")]])] } : Message)
    [.obj [("email", .str "z@x.com")]] rfl).1
      [.str "A <a@x.com>", .obj [("email", .str "b@x.com")]]
      [.obj [("name", .str "A"), ("email", .str "a@x.com")], .obj [("email", .str "b@x.com")]]
      (List.Forall₂.cons rfl (List.Forall₂.cons rfl List.Forall₂.nil))
  rw [h.1]
  rfl

/-! ## `local` -/

theorem foldl_setProp_not_mem (M : Props) :
    ∀ (L : Props) (k : String), k ∉ M.map Prod.fst →
      getProp (M.foldl (fun acc p => setProp acc p.1 p.2) L) k = getProp L k ∧
      hasProp (M.foldl (fun acc p => setProp acc p.1 p.2) L) k = hasProp L k := by
  induction M with
  | nil => intro L k _; exact ⟨rfl, rfl⟩
  | cons p M ih =>
    intro L k hk
    obtain ⟨k0, v0⟩ := p
    simp only [List.map_cons, List.mem_cons, not_or] at hk
    simp only [List.foldl_cons]
    obtain ⟨h1, h2⟩ := ih (setProp L k0 v0) k hk.2
    rw [h1, h2, getProp_setProp_ne L k0 k v0 hk.1, hasProp_setProp_ne L k0 k v0 hk.1]
    exact ⟨rfl, rfl⟩

theorem foldl_setProp_mem (M : Props) :
    ∀ (L : Props) (k : String), (M.map Prod.fst).Nodup → k ∈ M.map Prod.fst →
      getProp (M.foldl (fun acc p => setProp acc p.1 p.2) L) k = getProp M k ∧
      hasProp (M.foldl (fun acc p => setProp acc p.1 p.2) L) k = true := by
  induction M with
  | nil => intro L k _ hk; simp at hk
  | cons p M ih =>
    intro L k hnd hk
    obtain ⟨k0, v0⟩ := p
    simp only [List.map_cons, List.nodup_cons] at hnd
    simp only [List.foldl_cons]
    by_cases h0 : k0 = k
    · subst h0
      obtain ⟨h1, h2⟩ := foldl_setProp_not_mem M (setProp L k0 v0) k0 hnd.1
      rw [h1, h2, getProp_setProp_same, hasProp_setProp_same]
      simp [getProp]
    · have hk' : k ∈ M.map Prod.fst := by
        simp only [List.map_cons, List.mem_cons] at hk
        rcases hk with h | h
        · exact absurd h.symm h0
        · exact h
      obtain ⟨h1, h2⟩ := ih (setProp L k0 v0) k hnd.2 hk'
      rw [h1, h2]
      simp [getProp, h0]

theorem foldl_assign_no_proto (M : Props) :
    ∀ (o : Obj), hasProp M "__proto__" = false →
      M.foldl (fun acc p => assign acc p.1 p.2) o
        = { o with own := M.foldl (fun acc p => setProp acc p.1 p.2) o.own } := by
  induction M with
  | nil => intro o _; rfl
  | cons p M ih =>
    intro o h
    obtain ⟨k0, v0⟩ := p
    have h0 : k0 ≠ "__proto__" := by
      intro e
      simp [hasProp, e] at h
    simp only [hasProp, h0, if_false] at h
    simp only [List.foldl_cons]
    rw [assign_ne o k0 v0 h0, ih _ h]

/-- C7, as stated, fails at the key `__proto__`: `local("__proto__", "x")` goes to
the prototype setter of the locals object, which ignores a string, and the
locals have no key `__proto__` afterwards. -/
theorem local_proto_not_stored :
    ∃ m', (Message.fresh .null).local (.str "__proto__") (.str "x") = .ok (m', .self) ∧
      hasProp m'.locals "__proto__" = false ∧ getProp m'.locals "__proto__" = .undefined ∧
      m'.locals = [] :=
  ⟨_, rfl, rfl, rfl, rfl⟩

/-- C7, amended: `local(k, v)` with a string key other than `__proto__` maps `k` to
`v` and leaves every other key of the locals as it was; `local(M)` with a mapping
that has no key `__proto__` maps every key of `M` to the value in `M` and leaves
every key outside `M` as it was; so after `local(key, v)`, `local({key2: v2})`,
`local(key, v3)` with two different keys, neither of them `__proto__`, `key2` still
has `v2`, `key` has `v3`, and no other key has changed. -/
theorem local_merges (m : Message) :
    (∀ (k : String) (v : JSValue), k ≠ "__proto__" →
      ∃ m', m.local (.str k) v = .ok (m', .self) ∧
      getProp m'.locals k = v ∧ hasProp m'.locals k = true ∧
      m'.localsProto = m.localsProto ∧
      ∀ k', k' ≠ k →
        getProp m'.locals k' = getProp m.locals k' ∧
        hasProp m'.locals k' = hasProp m.locals k') ∧
    (∀ (M : Props) (v : JSValue), (M.map Prod.fst).Nodup → hasProp M "__proto__" = false →
      ∃ m', m.local (.obj M) v = .ok (m', .self) ∧
      m'.localsProto = m.localsProto ∧
      (∀ k, hasProp M k = true →
        getProp m'.locals k = getProp M k ∧ hasProp m'.locals k = true) ∧
      (∀ k, hasProp M k = false →
        getProp m'.locals k = getProp m.locals k ∧
        hasProp m'.locals k = hasProp m.locals k)) ∧
    (∀ (key key2 : String) (v v2 v3 : JSValue), key ≠ key2 → key ≠ "__proto__" →
      key2 ≠ "__proto__" →
      ∃ m1 m2 m3, m.local (.str key) v = .ok (m1, .self) ∧
        m1.local (.obj [(key2, v2)]) .undefined = .ok (m2, .self) ∧
        m2.local (.str key) v3 = .ok (m3, .self) ∧
        getProp m2.locals key = v ∧ hasProp m2.locals key = true ∧
        getProp m2.locals key2 = v2 ∧ hasProp m2.locals key2 = true ∧
        getProp m3.locals key = v3 ∧ getProp m3.locals key2 = v2 ∧
        hasProp m3.locals key = true ∧ hasProp m3.locals key2 = true ∧
        ∀ k', k' ≠ key → k' ≠ key2 →
          getProp m3.locals k' = getProp m.locals k' ∧
          hasProp m3.locals k' = hasProp m.locals k') := by
  have hstr : ∀ (m : Message) (k : String) (v : JSValue), k ≠ "__proto__" →
      m.local (.str k) v = .ok ({ m with locals := setProp m.locals k v }, .self) := by
    intro m k v hk
    simp [Message.local, JSValue.typeof, toPropertyKey, JSValue.toJSString, assign_ne _ _ _ hk,
      Message.localsObj]
  have hobj : ∀ (m : Message) (M : Props) (v : JSValue), hasProp M "__proto__" = false →
      m.local (.obj M) v
        = .ok ({ m with locals := M.foldl (fun acc p => setProp acc p.1 p.2) m.locals },
            .self) := by
    intro m M v hM
    simp [Message.local, JSValue.typeof, extend, forInEntries, foldl_assign_no_proto M _ hM,
      Message.localsObj]
  refine ⟨?_, ?_, ?_⟩
  · intro k v hk
    refine ⟨_, hstr m k v hk, getProp_setProp_same _ _ _, hasProp_setProp_same _ _ _, rfl, ?_⟩
    intro k' hk'
    exact ⟨getProp_setProp_ne _ _ _ _ hk', hasProp_setProp_ne _ _ _ _ hk'⟩
  · intro M v hnd hM
    refine ⟨_, hobj m M v hM, rfl, ?_, ?_⟩
    · intro k hk
      exact foldl_setProp_mem M m.locals k hnd ((hasProp_iff_mem M k).mp hk)
    · intro k hk
      apply foldl_setProp_not_mem M m.locals k
      intro hmem
      rw [(hasProp_iff_mem M k).mpr hmem] at hk
      cases hk
  · intro key key2 v v2 v3 hne hk1 hk2
    have hM : hasProp [(key2, v2)] "__proto__" = false := by
      simp [hasProp, hk2]
    refine ⟨_, _, _, hstr m key v hk1, hobj _ _ _ hM, hstr _ key v3 hk1, ?_⟩
    simp only [List.foldl_cons, List.foldl_nil]
    refine ⟨?_, ?_, ?_, ?_, ?_, ?_, ?_, ?_, ?_⟩
    · rw [getProp_setProp_ne _ _ _ _ hne, getProp_setProp_same]
    · rw [hasProp_setProp_ne _ _ _ _ hne, hasProp_setProp_same]
    · rw [getProp_setProp_same]
    · rw [hasProp_setProp_same]
    · rw [getProp_setProp_same]
    · rw [getProp_setProp_ne _ _ _ _ (Ne.symm hne), getProp_setProp_same]
    · rw [hasProp_setProp_same]
    · rw [hasProp_setProp_ne _ _ _ _ (Ne.symm hne), hasProp_setProp_same]
    · intro k' h1 h2
      rw [getProp_setProp_ne _ _ _ _ h1, getProp_setProp_ne _ _ _ _ h2,
        getProp_setProp_ne _ _ _ _ h1, hasProp_setProp_ne _ _ _ _ h1,
        hasProp_setProp_ne _ _ _ _ h2, hasProp_setProp_ne _ _ _ _ h1]
      exact ⟨rfl, rfl⟩

/-- C7, amended, on a Message whose locals already hold `city`, with the keys
`name` and `age`. -/
theorem local_merges_witness :
    "name" ≠ "age" ∧ "name" ≠ "__proto__" ∧ "age" ≠ "__proto__" ∧
    ∃ m1 m2 m3,
      ({ Message.fresh .null with locals := [("city", .str "Oslo")] } : Message).local
        (.str "name") (.str "Sam") = .ok (m1, .self) ∧
      m1.local (.obj [("age", .num 3)]) .undefined = .ok (m2, .self) ∧
      m2.local (.str "name") (.str "Kim") = .ok (m3, .self) ∧
      getProp m2.locals "name" = .str "Sam" ∧ hasProp m2.locals "name" = true ∧
      getProp m2.locals "age" = .num 3 ∧ hasProp m2.locals "age" = true ∧
      getProp m3.locals "name" = .str "Kim" ∧ getProp m3.locals "age" = .num 3 ∧
      hasProp m3.locals "name" = true ∧ hasProp m3.locals "age" = true ∧
      ∀ k', k' ≠ "name" → k' ≠ "age" →
        getProp m3.locals k'
          = getProp ({ Message.fresh .null with
              locals := [("city", .str "Oslo")] } : Message).locals k' ∧
        hasProp m3.locals k'
          = hasProp ({ Message.fresh .null with
              locals := [("city", .str "Oslo")] } : Message).locals k' :=
  ⟨by decide, by decide, by decide,
    (local_merges ({ Message.fresh .null with locals := [("city", .str "Oslo")] } : Message)).2.2
      "name" "age" (.str "Sam") (.num 3) (.str "Kim") (by decide) (by decide) (by decide)⟩

/-! ## `set` -/

theorem findMember_none_iff (t : List (String × Member)) (k : String) :
    findMember t k = none ↔ k ∉ t.map Prod.fst := by
  induction t with
  | nil => simp [findMember]
  | cons p t ih =>
    obtain ⟨k0, mem⟩ := p
    by_cases h0 : k0 = k
    · simp [findMember, h0]
    · simp [findMember, h0, ih, Ne.symm h0]

theorem member_none_iff (k : String) : member k = none ↔ k ∉ callableNames := by
  unfold member
  rw [findMember_none_iff]
  rfl

theorem set_obj_nil (env : Env) (m : Message) : m.set env (.obj []) = .ok (m, .self) := by
  simp [Message.set, setProps]

theorem set_obj_cons_none (env : Env) (m : Message) (k : String) (v : JSValue) (ps : Props)
    (h : member k = none) :
    m.set env (.obj ((k, v) :: ps)) = (m.store k v).set env (.obj ps) := by
  simp [Message.set, setProps, setEntry, h]

theorem set_obj_cons_some (env : Env) (m : Message) (k : String) (v : JSValue) (ps : Props)
    (mem : Member) (h : member k = some mem) :
    m.set env (.obj ((k, v) :: ps))
      = match m.call env mem v with
        | .error e => .error e
        | .ok r => r.1.set env (.obj ps) := by
  have hX : setEntry env k v (Message.set env v) m
      = match m.call env mem v with
        | .error e => .error e
        | .ok r => .ok r.1 := by
    cases mem <;> simp only [setEntry, h, Message.call]
  simp only [Message.set, setProps, hX]
  cases m.call env mem v <;> rfl

theorem set_returns_self (env : Env) (m : Message) (bag : JSValue) (r : Message × Ret)
    (h : m.set env bag = .ok r) : r.2 = .self := by
  cases bag <;> simp only [Message.set] at h
  case undefined => cases h; rfl
  case null => cases h; rfl
  case bool => cases h; rfl
  case num => cases h; rfl
  all_goals
    split at h
    · cases h
    · cases h; rfl

theorem store_ne (m : Message) (k : String) (v : JSValue) (h : k ≠ "__proto__") :
    m.store k v = { m with attrs := setProp m.attrs k v } := by
  simp [Message.store, assign_ne _ _ _ h, Message.attrsObj]

/-- C6, as stated, fails at the key `__proto__`: it names no callable member, and
`set` does not store its value in `attrs`; the assignment goes to the prototype
setter of `attrs`, which ignores a number. -/
theorem set_proto_not_stored :
    member "__proto__" = none ∧
    ∃ m', (Message.fresh .null).set acceptingEnv (.obj [("__proto__", .num 5)])
        = .ok (m', .self) ∧
      hasProp m'.attrs "__proto__" = false ∧ getProp m'.attrs "__proto__" = .undefined ∧
      m'.attrs = (Message.fresh .null).attrs :=
  ⟨by decide, _, rfl, rfl, rfl, rfl⟩

/-- C6, amended: `set` goes through the keys of the bag in enumeration order; a key
that names a callable member (one of the twenty-four names listed) is routed to
that member with the value of the key, so `set({to: x, subject: s})` leaves the
state of `to(x)` followed by `subject(s)`; any other key except `__proto__` is
stored verbatim in `attrs` under that key and nothing else changes; the key
`__proto__` is not stored, its assignment goes to the prototype setter of `attrs`;
`set` returns the Message. -/
theorem set_routes (env : Env) (m : Message) :
    m.set env (.obj []) = .ok (m, .self) ∧
    (∀ k v ps mem, member k = some mem →
      m.set env (.obj ((k, v) :: ps))
        = match m.call env mem v with
          | .error e => .error e
          | .ok r => r.1.set env (.obj ps)) ∧
    (∀ k v ps, k ∉ ["subject", "html", "template", "dryrun", "local", "to", "from", "altText",
        "tag", "set", "send", "sendHTML", "substitute", "toString", "constructor",
        "hasOwnProperty", "isPrototypeOf", "propertyIsEnumerable", "toLocaleString", "valueOf",
        "__defineGetter__", "__defineSetter__", "__lookupGetter__", "__lookupSetter__"] →
      member k = none ∧
      m.set env (.obj ((k, v) :: ps)) = (m.store k v).set env (.obj ps)) ∧
    (["subject", "html", "template", "dryrun", "local", "to", "from", "altText",
        "tag", "set", "send", "sendHTML", "substitute", "toString", "constructor",
        "hasOwnProperty", "isPrototypeOf", "propertyIsEnumerable", "toLocaleString", "valueOf",
        "__defineGetter__", "__defineSetter__", "__lookupGetter__", "__lookupSetter__"].map
        member
      = [some .subject, some .html, some .template, some .dryrun, some .local, some .to,
         some .from, some .altText, some .tag, some .set, some .send, some .sendHTML,
         some .substitute, some .toString, some .construct, some .hasOwnProperty,
         some .isPrototypeOf, some .propertyIsEnumerable, some .toLocaleString, some .valueOf,
         some .defineGetter, some .defineSetter, some .lookupGetter, some .lookupSetter]) ∧
    (∀ v, m.call env .to v = m.to (some v) ∧ m.call env .from v = m.from v ∧
      m.call env .subject v = m.subject v ∧ m.call env .html v = m.html v ∧
      m.call env .template v = m.template v ∧ m.call env .dryrun v = m.dryrun v ∧
      m.call env .tag v = m.tag v ∧ m.call env .local v = m.local v .undefined ∧
      m.call env .altText v = m.altText v ∧ m.call env .set v = m.set env v ∧
      m.call env .send v = .ok (m, .other) ∧
      m.call env .sendHTML v = m.sendHTMLData env ∧
      m.call env .substitute v = m.substituteData env v ∧
      m.call env .toString v = .ok (m, .other) ∧
      m.call env .toLocaleString v = .ok (m, .other) ∧
      m.call env .valueOf v = .ok (m, .self) ∧
      m.call env .isPrototypeOf v = .ok (m, .value (.bool false)) ∧
      m.call env .construct v = .error .typeError ∧
      m.call env .defineGetter v = .error .typeError ∧
      m.call env .defineSetter v = .error .typeError ∧
      (∀ mem r, mem ∈ [Member.hasOwnProperty, .propertyIsEnumerable, .lookupGetter,
          .lookupSetter, .substitute] → m.call env mem v = .ok r → r.1 = m)) ∧
    (∀ x s, (m.set env (.obj [("to", x), ("subject", s)])).map Prod.fst
      = ((m.to (some x)).bind (fun r => r.1.subject s)).map Prod.fst) ∧
    (∀ k v, k ∉ ["subject", "html", "template", "dryrun", "local", "to", "from", "altText",
        "tag", "set", "send", "sendHTML", "substitute", "toString", "constructor",
        "hasOwnProperty", "isPrototypeOf", "propertyIsEnumerable", "toLocaleString", "valueOf",
        "__defineGetter__", "__defineSetter__", "__lookupGetter__", "__lookupSetter__"] →
      k ≠ "__proto__" →
      ∃ m', m.set env (.obj [(k, v)]) = .ok (m', .self) ∧
        m' = { m with attrs := setProp m.attrs k v } ∧
        getProp m'.attrs k = v ∧ hasProp m'.attrs k = true ∧
        (∀ k', k' ≠ k → getProp m'.attrs k' = getProp m.attrs k' ∧
          hasProp m'.attrs k' = hasProp m.attrs k') ∧
        m'.attrsProto = m.attrsProto ∧ m'.opts = m.opts ∧ m'.locals = m.locals ∧
        m'.localsProto = m.localsProto ∧ m'.key = m.key ∧ m'.sent = m.sent ∧
        m'.plaintextTemplate = m.plaintextTemplate) ∧
    (∀ bag r, m.set env bag = .ok r → r.2 = .self) ∧
    (∀ v, hasProp m.attrs "__proto__" = false → m.attrsProto.reachesSetter = true →
      (m.store "__proto__" v).attrs = m.attrs ∧
      (m.store "__proto__" v).attrsProto = m.attrsProto.setTo v) := by
  refine ⟨set_obj_nil env m, fun k v ps mem h => set_obj_cons_some env m k v ps mem h,
    fun k v ps h => ⟨(member_none_iff k).mpr h,
      set_obj_cons_none env m k v ps ((member_none_iff k).mpr h)⟩,
    by decide, ?_, ?_, ?_, fun bag r h => set_returns_self env m bag r h,
    fun v h1 h2 => by simp [Message.store, assign, Message.attrsObj, h1, h2]⟩
  · intro v
    refine ⟨rfl, rfl, rfl, rfl, rfl, rfl, rfl, rfl, rfl, rfl, rfl, rfl, rfl, rfl, rfl, rfl, rfl,
      rfl, rfl, rfl, ?_⟩
    intro mem r hmem hcall
    simp only [List.mem_cons, List.mem_singleton, List.not_mem_nil, or_false] at hmem
    rcases hmem with rfl | rfl | rfl | rfl | rfl <;>
      simp only [Message.call, callMember, Message.substituteData] at hcall <;>
      split at hcall <;> first
        | (cases hcall; rfl)
        | cases hcall
        | (split at hcall <;> first | (cases hcall; rfl) | cases hcall)
  · intro x s
    rw [set_obj_cons_some env m "to" x _ .to (by decide)]
    have hc : m.call env .to x = m.to (some x) := rfl
    rw [hc]
    cases hto : m.to (some x) with
    | error e => rfl
    | ok r =>
      simp only [Except.bind]
      rw [set_obj_cons_some env r.1 "subject" s _ .subject (by decide)]
      have hc2 : r.1.call env .subject s = r.1.subject s := rfl
      rw [hc2]
      cases hs : r.1.subject s with
      | error e => rfl
      | ok r2 => simp [set_obj_nil, Except.map]
  · intro k v h hk
    have hm : member k = none := (member_none_iff k).mpr h
    refine ⟨{ m with attrs := setProp m.attrs k v }, ?_, rfl, getProp_setProp_same _ _ _,
      hasProp_setProp_same _ _ _, ?_, rfl, rfl, rfl, rfl, rfl, rfl, rfl⟩
    · rw [set_obj_cons_none env m k v [] hm, set_obj_nil, store_ne m k v hk]
    · intro k' hk'
      exact ⟨getProp_setProp_ne _ _ _ _ hk', hasProp_setProp_ne _ _ _ _ hk'⟩

/-- C6, amended, on a fresh Message with the free key `merge`, with a recipient and
a subject, and with the inherited member `toString` in front of a subject. -/
theorem set_routes_witness :
    (Message.fresh .null).set acceptingEnv (.obj [("merge", .bool true)])
      = .ok ({ Message.fresh .null with
          attrs := setProp (Message.fresh .null).attrs "merge" (.bool true) }, .self) ∧
    ((Message.fresh .null).set acceptingEnv
        (.obj [("to", .str "a@x.com"), ("subject", .str "Hi")])).map Prod.fst
      = (((Message.fresh .null).to (some (.str "a@x.com"))).bind
          (fun r => r.1.subject (.str "Hi"))).map Prod.fst ∧
    (Message.fresh .null).set acceptingEnv (.obj [("toString", .num 1), ("subject", .str "x")])
      = (Message.fresh .null).set acceptingEnv (.obj [("subject", .str "x")]) := by
  refine ⟨?_, (set_routes acceptingEnv (Message.fresh .null)).2.2.2.2.2.1 _ _, ?_⟩
  · obtain ⟨m', h1, h2, _⟩ := (set_routes acceptingEnv (Message.fresh .null)).2.2.2.2.2.2.1
      "merge" (.bool true) (by decide) (by decide)
    rw [h1, h2]
  · rw [(set_routes acceptingEnv (Message.fresh .null)).2.1 "toString" (.num 1) _ .toString
      (by decide)]
    rfl

/-! ## The send pipeline -/

theorem addLitmus_litmusTest (m : Message) : addLitmus litmusTest m = .ok m := by
  simp [litmusTest, addLitmus]

theorem sendFinal_skip (env : Env) (m : Message)
    (h : (getProp m.opts "dryrun").truthy = true ∨ m.sent = true) :
    sendFinal env m = (m, []) := by
  unfold sendFinal
  rcases h with h | h
  · simp [h]
  · simp [h]

theorem sendFinal_dispatch (env : Env) (m : Message)
    (hd : (getProp m.opts "dryrun").truthy = false) (hs : m.sent = false) :
    sendFinal env m =
      if (env.post m.key m.attrs).1.truthy then
        (m, [.request m.key m.attrs, .callback (env.post m.key m.attrs).1 none])
      else if (env.post m.key m.attrs).2.ok then
        ({ m with sent := true },
          [.request m.key m.attrs, .callback .null (some (env.post m.key m.attrs).2.body)])
      else
        (m, [.request m.key m.attrs,
          .callback (.obj [("message", .str (statusMessage (env.post m.key m.attrs).2.status)),
            ("data", (env.post m.key m.attrs).2.body)]) none]) := by
  unfold sendFinal
  simp [hd, hs]

theorem sendFinal_request (env : Env) (m : Message) (k : JSValue) (p : Props)
    (h : Event.request k p ∈ (sendFinal env m).2) :
    k = m.key ∧ p = m.attrs ∧ (getProp m.opts "dryrun").truthy = false ∧ m.sent = false := by
  cases hd : (getProp m.opts "dryrun").truthy with
  | true => rw [sendFinal_skip env m (Or.inl hd)] at h; simp at h
  | false =>
    cases hs : m.sent with
    | true => rw [sendFinal_skip env m (Or.inr hs)] at h; simp at h
    | false =>
      rw [sendFinal_dispatch env m hd hs] at h
      split at h
      · simp at h; exact ⟨h.1, h.2, rfl, rfl⟩
      · split at h
        · simp at h; exact ⟨h.1, h.2, rfl, rfl⟩
        · simp at h; exact ⟨h.1, h.2, rfl, rfl⟩

theorem sendFinal_attrs (env : Env) (m : Message) : (sendFinal env m).1.attrs = m.attrs := by
  unfold sendFinal
  split
  · rfl
  · split
    · rfl
    · simp only []
      split
      · rfl
      · split <;> rfl

theorem substituteField_own (subs : JSValue → Option Obj → Except Err JSValue)
    (locals : Option Obj) (k : String) (proto : Proto) (own own1 : Props)
    (h : substituteField subs locals k proto own = .ok own1) :
    own1 = own ∨ ∃ v, own1 = setProp own k v := by
  unfold substituteField at h
  split at h
  · split at h
    · cases h
    · cases h; exact Or.inr ⟨_, rfl⟩
  · cases h; exact Or.inl rfl

theorem substituteField_stable (Q : Props → Prop) (A : String → Prop) (hQ : Stable Q A)
    (subs : JSValue → Option Obj → Except Err JSValue) (locals : Option Obj) (k : String)
    (hk : k ≠ "to") (hA : A k) (proto : Proto) (own own1 : Props) (h : Q own)
    (hs : substituteField subs locals k proto own = .ok own1) : Q own1 := by
  rcases substituteField_own subs locals k proto own own1 hs with rfl | ⟨v, rfl⟩
  · exact h
  · exact hQ.store _ _ _ hk hA h

theorem substituteFields_stable (Q : Props → Prop) (A : String → Prop) (hQ : Stable Q A)
    (subs : JSValue → Option Obj → Except Err JSValue) (locals : Option Obj) (proto : Proto)
    (own own1 : Props) (h : Q own) (hs : substituteFields subs locals proto own = .ok own1) :
    Q own1 := by
  obtain ⟨h1, _, _, h4, h5, _⟩ := hQ.named
  unfold substituteFields at hs
  split at hs
  · cases hs
  · rename_i a ha
    split at hs
    · cases hs
    · rename_i b hb
      exact substituteField_stable Q A hQ _ _ _ (by decide) h1 _ _ _
        (substituteField_stable Q A hQ _ _ _ (by decide) h5 _ _ _
          (substituteField_stable Q A hQ _ _ _ (by decide) h4 _ _ _ h ha) hb) hs

theorem substitute_stable (Q : Props → Prop) (A : String → Prop) (hQ : Stable Q A)
    (subs : JSValue → Option Obj → Except Err JSValue) (attrs : Obj) (locals : Option Obj)
    (attrs1 : Props) (h : Q attrs.own)
    (hs : Message.substitute subs attrs locals = .ok attrs1) : Q attrs1 := by
  unfold Message.substitute at hs
  split at hs
  · split at hs
    · cases hs
    · cases hs
    · rename_i qs hqs
      split at hs
      · cases hs
      · exact substituteFields_stable Q A hQ _ _ _ _ _ (hQ.substitutedObj _ _ _ h hqs) hs
    · split at hs
      · cases hs
      · exact substituteFields_stable Q A hQ _ _ _ _ _ (hQ.substituted _ _ h) hs
    · exact substituteFields_stable Q A hQ _ _ _ _ _ h hs
  · split at hs <;> cases hs

theorem sendHTML_shape (env : Env) (m m1 : Message) (ho : m1.opts = m.opts)
    (hp : m1.plaintextTemplate = m.plaintextTemplate) (hs : m1.sent = m.sent)
    (hk : m1.key = m.key) (hst : ∀ Q A, Stable Q A → Q m.attrs → Q m1.attrs) :
    RunShape env m (m1.sendHTML env) := by
  unfold Message.sendHTML
  cases ha : m1.plaintextTemplate.truthy with
  | false =>
    simp only [Bool.false_eq_true, if_false]
    exact Or.inr (Or.inr ⟨m1, ho, hs, hk, hst, rfl, rfl⟩)
  | true =>
    simp only [if_true]
    cases hr : env.render m1.plaintextTemplate m1.localsObj with
    | threw e => exact Or.inl ⟨rfl, e, rfl⟩
    | called late err out locals =>
      simp only []
      cases he : err.truthy with
      | true =>
        simp only [if_true]
        refine Or.inr (Or.inl ⟨err, _, ⟨m.plaintextTemplate, m1.localsObj, late, out, locals,
          Or.inr rfl, hp ▸ ha, hp ▸ hr, he⟩, rfl, rfl, hs, hst⟩)
      | false =>
        simp only [Bool.false_eq_true, if_false]
        cases ht : toStringCall out with
        | error e => exact Or.inl ⟨rfl, e, rfl⟩
        | ok text =>
          refine Or.inr (Or.inr ⟨{ m1 with locals := locals.own, localsProto := locals.proto, attrs := setProp m1.attrs "text" (.str text) }, ho, hs, hk, ?_, rfl, rfl⟩)
          intro Q A hQ hq
          exact hQ.store _ _ _ (by decide) hQ.named.2.2.1 (hst Q A hQ hq)

theorem send_shape (env : Env) (m : Message) : RunShape env m (m.send env) := by
  unfold Message.send
  cases hsub : Message.substitute env.subs m.attrsObj (some m.localsObj) with
  | error e => exact Or.inl ⟨rfl, e, rfl⟩
  | ok attrs1 =>
    simp only [addLitmus_litmusTest]
    have hst : ∀ Q A, Stable Q A → Q m.attrs → Q attrs1 :=
      fun Q A hQ hq => substitute_stable Q A hQ _ _ _ _ hq hsub
    cases ht : (getProp m.opts "template").truthy with
    | false =>
      simp only [ht, Bool.not_false, if_true]
      exact sendHTML_shape env m _ rfl rfl rfl rfl hst
    | true =>
      simp only [ht, Bool.not_true, Bool.false_eq_true, if_false]
      cases hr : env.render (getProp m.opts "template") ({ m with attrs := attrs1 } : Message).localsObj with
      | threw e => exact Or.inl ⟨rfl, e, rfl⟩
      | called late err out locals =>
        simp only []
        cases he : err.truthy with
        | true =>
          simp only [if_true]
          exact Or.inr (Or.inl ⟨err, _, ⟨getProp m.opts "template", _, late, out, locals,
            Or.inl rfl, ht, hr, he⟩, rfl, rfl, rfl, hst⟩)
        | false =>
          simp only [Bool.false_eq_true, if_false]
          cases hts : toStringCall out with
          | error e => exact Or.inl ⟨rfl, e, rfl⟩
          | ok html =>
            refine sendHTML_shape env m _ rfl rfl rfl rfl ?_
            intro Q A hQ hq
            exact hQ.store _ _ _ (by decide) hQ.named.2.1 (hst Q A hQ hq)

theorem send_skipped (env : Env) (m : Message)
    (hskip : (getProp m.opts "dryrun").truthy = true ∨ m.sent = true) :
    (∀ ev ∈ (m.send env).events, ev.isRequest = false) ∧
    (m.send env).events.length ≤ 1 ∧
    (∀ ev ∈ (m.send env).events, ∃ e, ev = .callback e none ∧ ReportedBy env m e) ∧
    ((getProp m.opts "template").truthy = false → m.plaintextTemplate.truthy = false →
      (m.send env).events = []) ∧
    (∀ m', (m.send env).result = .ok m' → m'.sent = m.sent) := by
  rcases send_shape env m with ⟨hev, e, hres⟩ | ⟨e, m0, hrep, hev, hres, hs, _⟩ |
    ⟨m0, ho, hs, _, _, hres, hev⟩
  · rw [hev, hres]
    refine ⟨by simp, by simp, by simp, fun _ _ => rfl, ?_⟩
    intro m' h
    cases h
  · rw [hev, hres]
    refine ⟨?_, by simp, ?_, ?_, ?_⟩
    · intro ev hmem
      simp only [List.mem_singleton] at hmem
      subst hmem
      rfl
    · intro ev hmem
      simp only [List.mem_singleton] at hmem
      exact ⟨e, hmem, hrep⟩
    · intro h1 h2
      obtain ⟨tpl, _, _, _, _, htpl, htr, _, _⟩ := hrep
      rcases htpl with rfl | rfl
      · rw [h1] at htr; cases htr
      · rw [h2] at htr; cases htr
    · intro m' h
      cases h
      exact hs
  · rw [sendFinal_skip env m0 (by rw [ho, hs]; exact hskip)] at hres hev
    rw [hev, hres]
    refine ⟨by simp, by simp, by simp, fun _ _ => rfl, ?_⟩
    intro m' h
    cases h
    exact hs

theorem send_dispatched (env : Env) (m : Message) (k : JSValue) (p : Props)
    (hreq : Event.request k p ∈ (m.send env).events) :
    ∃ m0 : Message, m0.sent = false ∧ m.sent = false ∧ m0.key = k ∧ m0.attrs = p ∧
      (getProp m0.opts "dryrun").truthy = false ∧
      (m.send env).result = .ok (sendFinal env m0).1 ∧
      (m.send env).events = (sendFinal env m0).2 := by
  rcases send_shape env m with ⟨hev, _, _⟩ | ⟨e, m0, _, hev, _, _, _⟩ |
    ⟨m0, _, hs, _, _, hres, hev⟩
  · rw [hev] at hreq
    simp at hreq
  · rw [hev] at hreq
    simp at hreq
  · rw [hev] at hreq
    obtain ⟨h1, h2, h3, h4⟩ := sendFinal_request env m0 k p hreq
    exact ⟨m0, h4, by rw [← hs]; exact h4, h1.symm, h2.symm, h3, hres, hev⟩

/-- C4: when a send reaches the endpoint and the transport reports no error and a
response that is not ok, with status `s` and body `b`, the callback is called
exactly once, with one argument: an error whose message is
`'Mandrill response status '` followed by `s` and whose `data` is `b`; the Message
was not sent before and is not sent afterwards. -/
theorem remote_rejection (env : Env) (m : Message) (k : JSValue) (p : Props)
    (hreq : Event.request k p ∈ (m.send env).events)
    (herr : (env.post k p).1.truthy = false) (hnok : (env.post k p).2.ok = false) :
    (m.send env).events = [.request k p,
      .callback (.obj [("message",
          .str ("Mandrill response status " ++ toString (env.post k p).2.status)),
        ("data", (env.post k p).2.body)]) none] ∧
    (m.send env).events.filter Event.isCallback
      = [.callback (.obj [("message",
          .str ("Mandrill response status " ++ toString (env.post k p).2.status)),
        ("data", (env.post k p).2.body)]) none] ∧
    m.sent = false ∧ (∃ m', (m.send env).result = .ok m' ∧ m'.sent = false) ∧
    statusMessage 500 = "Mandrill response status 500" := by
  obtain ⟨m0, hs0, hs, hk, hp, hd, hres, hev⟩ := send_dispatched env m k p hreq
  rw [sendFinal_dispatch env m0 hd hs0, hk, hp] at hres hev
  simp only [herr, hnok, Bool.false_eq_true, if_false] at hres hev
  rw [hev, hres]
  exact ⟨rfl, rfl, hs, ⟨m0, rfl, hs0⟩, by decide⟩

/-- C4, on a fresh Message and an endpoint that answers 500 with the body
`status: error`. -/
theorem remote_rejection_witness :
    Event.request (.str "api-key") (Message.fresh (.str "api-key")).attrs
      ∈ ((Message.fresh (.str "api-key")).send rejectingEnv).events ∧
    (rejectingEnv.post (.str "api-key") (Message.fresh (.str "api-key")).attrs).1.truthy
      = false ∧
    (rejectingEnv.post (.str "api-key") (Message.fresh (.str "api-key")).attrs).2.ok = false ∧
    ((Message.fresh (.str "api-key")).send rejectingEnv).events
      = [.request (.str "api-key") (Message.fresh (.str "api-key")).attrs,
        .callback (.obj [("message", .str "Mandrill response status 500"),
          ("data", .obj [("status", .str "error")])]) none] ∧
    ∃ m', ((Message.fresh (.str "api-key")).send rejectingEnv).result = .ok m' ∧
      m'.sent = false :=
  ⟨List.mem_cons_self _ _, rfl, rfl,
    (remote_rejection rejectingEnv (Message.fresh (.str "api-key")) _ _
      (List.mem_cons_self _ _) rfl rfl).1,
    (remote_rejection rejectingEnv (Message.fresh (.str "api-key")) _ _
      (List.mem_cons_self _ _) rfl rfl).2.2.2.1⟩

/-- C3, as stated, fails: a Message that has been sent, is then given a template and
is sent again with a renderer that reports an error, has its callback called with
that error. -/
theorem send_again_calls_back :
    ∃ m1 m2,
      (Message.fresh (.str "api-key")).send failingRenderEnv
        = { result := .ok m1,
            events := [.request (.str "api-key") (Message.fresh (.str "api-key")).attrs,
              .callback .null (some (.obj [("status", .str "sent")]))] } ∧
      m1.sent = true ∧
      m1.template (.str "mail.jade") = .ok (m2, .self) ∧
      m2.sent = true ∧
      (m2.send failingRenderEnv).events
        = [.callback (.obj [("message", .str "ENOENT")]) none] :=
  ⟨_, _, rfl, rfl, rfl, rfl, rfl⟩

/-- C3, amended: a send that reaches the endpoint and gets an ok response sets
`sent` and calls the callback with `null` and the body of the response; a send on a
Message that is already sent, whether it returns or throws, issues no request and
calls the callback at most once, and only with an error that the renderer has
reported for the template or the plaintext template, with no result; with
neither of the two set it does not call it; when it returns, `sent` is still
true. -/
theorem send_once (env : Env) (m : Message) :
    (∀ k p, Event.request k p ∈ (m.send env).events →
      (env.post k p).1.truthy = false → (env.post k p).2.ok = true →
      m.sent = false ∧ (∃ m', (m.send env).result = .ok m' ∧ m'.sent = true) ∧
      (m.send env).events = [.request k p, .callback .null (some (env.post k p).2.body)]) ∧
    (m.sent = true →
      (∀ ev ∈ (m.send env).events, ev.isRequest = false) ∧
      (m.send env).events.length ≤ 1 ∧
      (∀ ev ∈ (m.send env).events, ∃ e, ev = .callback e none ∧ ReportedBy env m e) ∧
      ((getProp m.opts "template").truthy = false → m.plaintextTemplate.truthy = false →
        (m.send env).events = []) ∧
      (∀ m', (m.send env).result = .ok m' → m'.sent = true)) := by
  constructor
  · intro k p hreq herr hok
    obtain ⟨m0, hs0, hs, hk, hp, hd, hres, hev⟩ := send_dispatched env m k p hreq
    rw [sendFinal_dispatch env m0 hd hs0, hk, hp] at hres hev
    simp only [herr, hok, Bool.false_eq_true, if_false, if_true] at hres hev
    rw [hev, hres]
    exact ⟨hs, ⟨_, rfl, rfl⟩, rfl⟩
  · intro hsent
    obtain ⟨h1, h2, h3, h4, h5⟩ := send_skipped env m (Or.inr hsent)
    exact ⟨h1, h2, h3, h4, fun m' h => (h5 m' h).trans hsent⟩

/-- C3, amended, on a sent Message with the template `mail`, for which
`resolveTemplate` throws: nothing happens outside. -/
theorem send_once_witness :
    ({ Message.fresh (.str "api-key") with
        sent := true, opts := [("template", .str "mail")] } : Message).sent = true ∧
    (({ Message.fresh (.str "api-key") with
        sent := true, opts := [("template", .str "mail")] } : Message).send
      throwingRenderEnv).result = .error .typeError ∧
    (∀ ev ∈ (({ Message.fresh (.str "api-key") with
        sent := true, opts := [("template", .str "mail")] } : Message).send
      throwingRenderEnv).events, ev.isRequest = false) ∧
    (({ Message.fresh (.str "api-key") with
        sent := true, opts := [("template", .str "mail")] } : Message).send
      throwingRenderEnv).events.length ≤ 1 :=
  ⟨rfl, rfl,
    ((send_once throwingRenderEnv
      ({ Message.fresh (.str "api-key") with
        sent := true, opts := [("template", .str "mail")] } : Message)).2 rfl).1,
    ((send_once throwingRenderEnv
      ({ Message.fresh (.str "api-key") with
        sent := true, opts := [("template", .str "mail")] } : Message)).2 rfl).2.1⟩

/-- C8, as stated, fails: a Message in dry-run mode with a template for which the
renderer reports an error has its callback called with that error. -/
theorem dryrun_calls_back :
    ∃ m1 m2,
      (Message.fresh (.str "api-key")).dryrun (.bool true) = .ok (m1, .self) ∧
      getProp m1.opts "dryrun" = .bool true ∧
      m1.template (.str "mail.jade") = .ok (m2, .self) ∧
      getProp m2.opts "dryrun" = .bool true ∧
      (m2.send failingRenderEnv).events
        = [.callback (.obj [("message", .str "ENOENT")]) none] :=
  ⟨_, _, rfl, rfl, rfl, rfl, rfl⟩

/-- C8, amended: on a Message whose `dryrun` option is true, `send`, whether it
returns or throws, issues no request and calls the callback at most once, and
only with an error that the renderer has reported for the template or the
plaintext template, with no result; with neither of the two set it does not call
it; when it returns, `sent` is as it was. -/
theorem dryrun_skips_dispatch (env : Env) (m : Message)
    (hdry : (getProp m.opts "dryrun").truthy = true) :
    (∀ ev ∈ (m.send env).events, ev.isRequest = false) ∧
    (m.send env).events.length ≤ 1 ∧
    (∀ ev ∈ (m.send env).events, ∃ e, ev = .callback e none ∧ ReportedBy env m e) ∧
    ((getProp m.opts "template").truthy = false → m.plaintextTemplate.truthy = false →
      (m.send env).events = []) ∧
    (∀ m', (m.send env).result = .ok m' → m'.sent = m.sent) :=
  send_skipped env m (Or.inl hdry)

/-- C8, amended, on a Message in dry-run mode with a template that renders. -/
theorem dryrun_skips_dispatch_witness :
    (getProp ({ Message.fresh (.str "api-key") with
        opts := [("dryrun", .bool true), ("template", .str "mail.jade")] } : Message).opts
      "dryrun").truthy = true ∧
    (({ Message.fresh (.str "api-key") with
        opts := [("dryrun", .bool true), ("template", .str "mail.jade")] } : Message).send
      acceptingEnv).events = [] ∧
    (∀ ev ∈ (({ Message.fresh (.str "api-key") with
        opts := [("dryrun", .bool true), ("template", .str "mail.jade")] } : Message).send
      acceptingEnv).events, ev.isRequest = false) ∧
    ∀ m', (({ Message.fresh (.str "api-key") with
        opts := [("dryrun", .bool true), ("template", .str "mail.jade")] } : Message).send
      acceptingEnv).result = .ok m' → m'.sent = false :=
  ⟨rfl, rfl,
    (dryrun_skips_dispatch acceptingEnv
      ({ Message.fresh (.str "api-key") with
        opts := [("dryrun", .bool true), ("template", .str "mail.jade")] } : Message) rfl).1,
    (dryrun_skips_dispatch acceptingEnv
      ({ Message.fresh (.str "api-key") with
        opts := [("dryrun", .bool true), ("template", .str "mail.jade")] } : Message)
      rfl).2.2.2.2⟩

/-! ## What the operations keep of `attrs` -/

theorem sendFinalData_attrs (env : Env) (m : Message) (r : Message × Ret)
    (h : sendFinalData env m = .ok r) : r.1 = m := by
  unfold sendFinalData at h
  split at h
  · cases h; rfl
  · split at h
    · cases h; rfl
    · split at h
      · cases h; rfl
      · cases h

theorem sendHTMLData_stable (Q : Props → Prop) (A : String → Prop) (hQ : Stable Q A)
    (env : Env) (m : Message) (r : Message × Ret) (hq : Q m.attrs)
    (h : m.sendHTMLData env = .ok r) : Q r.1.attrs := by
  unfold Message.sendHTMLData at h
  split at h
  · split at h
    · cases h
    · split at h
      · cases h
        exact hq
      · split at h
        · cases h
        · split at h
          · cases h
          · rw [sendFinalData_attrs env _ r h]
            exact hQ.store _ _ _ (by decide) hQ.named.2.2.1 hq
  · rw [sendFinalData_attrs env _ r h]
    exact hq

theorem callMember_stable (Q : Props → Prop) (A : String → Prop) (hQ : Stable Q A)
    (env : Env) (mem : Member) (v : JSValue) (m : Message) (r : Message × Ret)
    (hq : Q m.attrs) (h : callMember env mem v m = .ok r) : Q r.1.attrs := by
  obtain ⟨hsubject, hhtml, _, hfe, hfn, _⟩ := hQ.named
  cases mem <;> simp only [callMember] at h
  case subject =>
    simp only [Message.subject, fluentAttrs] at h
    split at h <;> cases h
    · exact hQ.store _ _ _ (by decide) hsubject hq
    · exact hq
  case html =>
    simp only [Message.html, fluentAttrs] at h
    split at h <;> cases h
    · exact hQ.store _ _ _ (by decide) hhtml hq
    · exact hq
  case template =>
    simp only [Message.template, fluentOpts] at h
    split at h <;> cases h <;> exact hq
  case dryrun =>
    simp only [Message.dryrun, fluentOpts] at h
    split at h <;> cases h <;> exact hq
  case «local» =>
    simp only [Message.local] at h
    split at h
    · cases h
      exact hq
    · split at h
      · cases h
      · cases h
        exact hq
  case «to» =>
    simp only [Message.to] at h
    split at h
    · split at h
      · cases h
      · split at h
        · cases h
        · rename_i hcv
          cases h
          exact hQ.recipients _ _ _ _ hq (fun hp => lookup_own m.attrsObj "to" hp) hcv
    · cases h
  case «from» =>
    simp only [Message.from] at h
    split at h
    · cases h
    · cases h
    · cases h
      exact hQ.store _ _ _ (by decide) hfn (hQ.store _ _ _ (by decide) hfe hq)
  case altText =>
    simp only [Message.altText] at h
    split at h <;> cases h <;> exact hq
  case tag =>
    simp only [Message.tag] at h
    split at h
    · cases h
    · rename_i hcv
      cases h
      exact hQ.tags _ _ _ _ hq (fun hp => lookup_own m.attrsObj "tags" hp) hcv
  case set => cases h; exact hq
  case send => cases h; exact hq
  case sendHTML => exact sendHTMLData_stable Q A hQ env m r hq h
  case substitute =>
    simp only [Message.substituteData] at h
    split at h
    · split at h
      · cases h
      · cases h; exact hq
    · cases h
  case toString => cases h; exact hq
  case construct => cases h
  case hasOwnProperty => split at h <;> cases h; exact hq
  case isPrototypeOf => cases h; exact hq
  case propertyIsEnumerable => split at h <;> cases h; exact hq
  case toLocaleString => cases h; exact hq
  case valueOf => cases h; exact hq
  case defineGetter => cases h
  case defineSetter => cases h
  case lookupGetter => split at h <;> cases h; exact hq
  case lookupSetter => split at h <;> cases h; exact hq

theorem member_eq_set (k : String) (h : member k = some .set) : k = "set" := by
  by_contra hne
  have hmem : k ∈ callableNames := by
    by_contra hn
    rw [(member_none_iff k).mpr hn] at h
    cases h
  simp only [callableNames, List.mem_cons, List.mem_singleton, List.not_mem_nil, or_false]
    at hmem
  rcases hmem with rfl | rfl | rfl | rfl | rfl | rfl | rfl | rfl | rfl | rfl | rfl | rfl | rfl
    | rfl | rfl | rfl | rfl | rfl | rfl | rfl | rfl | rfl | rfl | rfl <;>
    first
      | exact hne rfl
      | exact absurd h (by decide)

theorem member_to_ne (k : String) (h : member k = none) : k ≠ "to" := by
  intro hk
  subst hk
  exact absurd h (by decide)

theorem store_stable (Q : Props → Prop) (A : String → Prop) (hQ : Stable Q A)
    (m : Message) (k : String) (v : JSValue) (hk : k ≠ "to") (hA : A k) (hq : Q m.attrs) :
    Q (m.store k v).attrs := by
  rcases assign_own m.attrsObj k v with h | h
  · simp only [Message.store, h]
    exact hq
  · simp only [Message.store, h]
    exact hQ.store _ _ _ hk hA hq

theorem setEntry_stable (Q : Props → Prop) (A : String → Prop) (hQ : Stable Q A) (env : Env)
    (k : String) (v : JSValue) (recur : Message → Outcome) (m m' : Message) (hA : A k)
    (hrec : member k = some .set → ∀ r, recur m = .ok r → Q r.1.attrs) (hq : Q m.attrs)
    (h : setEntry env k v recur m = .ok m') : Q m'.attrs := by
  unfold setEntry at h
  split at h
  · rename_i hm
    cases h
    exact store_stable Q A hQ m k v (member_to_ne k hm) hA hq
  · rename_i hm
    split at h
    · cases h
    · rename_i r hr
      cases h
      exact hrec hm r hr
  · split at h
    · cases h
    · rename_i r hr
      cases h
      exact callMember_stable Q A hQ env _ v m r hq hr

theorem setChars_stable (Q : Props → Prop) (A : String → Prop) (hQ : Stable Q A) (env : Env) :
    ∀ (cs : List Char) (i : Nat) (m m' : Message), CharsOK A cs i → Q m.attrs →
      setChars env cs i m = .ok m' → Q m'.attrs := by
  intro cs
  induction cs with
  | nil =>
    intro i m m' _ hq h
    simp only [setChars] at h
    cases h
    exact hq
  | cons c cs ih =>
    intro i m m' hok hq h
    simp only [setChars] at h
    split at h
    · cases h
    · rename_i m1 h1
      have hq1 : Q m1.attrs :=
        setEntry_stable Q A hQ env _ _ _ m m1 hok.1
          (fun _ r hr => by
            cases hr
            exact store_stable Q A hQ m "0" _ (by decide) hQ.named.2.2.2.2.2 hq) hq h1
      exact ih (i + 1) m1 m' hok.2 hq1 h

mutual
theorem set_stable (Q : Props → Prop) (A : String → Prop) (hQ : Stable Q A)
    (P : JSValue → Prop) (hP : BagClosed P A) (env : Env) :
    ∀ (bag : JSValue) (m : Message) (r : Message × Ret), P bag → Q m.attrs →
      m.set env bag = .ok r → Q r.1.attrs
  | .undefined, m, r, _, hq, h => by simp only [Message.set] at h; cases h; exact hq
  | .null, m, r, _, hq, h => by simp only [Message.set] at h; cases h; exact hq
  | .bool _, m, r, _, hq, h => by simp only [Message.set] at h; cases h; exact hq
  | .num _, m, r, _, hq, h => by simp only [Message.set] at h; cases h; exact hq
  | .str s, m, r, hp, hq, h => by
    simp only [Message.set] at h
    split at h
    · cases h
    · rename_i m1 h1
      cases h
      exact setChars_stable Q A hQ env _ _ m m1 (hP.chars s hp) hq h1
  | .arr xs, m, r, hp, hq, h => by
    simp only [Message.set] at h
    split at h
    · cases h
    · rename_i m1 h1
      cases h
      exact setElems_stable Q A hQ P hP env xs 0 m m1 (hP.elems xs hp) hq h1
  | .obj ps, m, r, hp, hq, h => by
    simp only [Message.set] at h
    split at h
    · cases h
    · rename_i m1 h1
      cases h
      exact setProps_stable Q A hQ P hP env ps m m1 hp hq h1
theorem setProps_stable (Q : Props → Prop) (A : String → Prop) (hQ : Stable Q A)
    (P : JSValue → Prop) (hP : BagClosed P A) (env : Env) :
    ∀ (ps : List (String × JSValue)) (m m' : Message), P (.obj ps) → Q m.attrs →
      setProps env ps m = .ok m' → Q m'.attrs
  | [], m, m', _, hq, h => by simp only [setProps] at h; cases h; exact hq
  | (k, v) :: ps, m, m', hp, hq, h => by
    simp only [setProps] at h
    split at h
    · cases h
    · rename_i m1 h1
      have hq1 : Q m1.attrs :=
        setEntry_stable Q A hQ env k v _ m m1 (hP.head k v ps hp)
          (fun hm r hr =>
            set_stable Q A hQ P hP env v m r (hP.nested k v ps hp (member_eq_set k hm)) hq hr)
          hq h1
      exact setProps_stable Q A hQ P hP env ps m1 m' (hP.rest k v ps hp) hq1 h
theorem setElems_stable (Q : Props → Prop) (A : String → Prop) (hQ : Stable Q A)
    (P : JSValue → Prop) (hP : BagClosed P A) (env : Env) :
    ∀ (xs : List JSValue) (i : Nat) (m m' : Message), ElemsOK P A xs i → Q m.attrs →
      setElems env xs i m = .ok m' → Q m'.attrs
  | [], _, m, m', _, hq, h => by simp only [setElems] at h; cases h; exact hq
  | x :: xs, i, m, m', hok, hq, h => by
    simp only [setElems] at h
    split at h
    · cases h
    · rename_i m1 h1
      have hq1 : Q m1.attrs :=
        setEntry_stable Q A hQ env _ x _ m m1 hok.1
          (fun hm r hr =>
            set_stable Q A hQ P hP env x m r (hok.2.1 (member_eq_set _ hm)) hq hr)
          hq h1
      exact setElems_stable Q A hQ P hP env xs (i + 1) m1 m' hok.2.2 hq1 h
end

theorem send_stable (Q : Props → Prop) (A : String → Prop) (hQ : Stable Q A) (env : Env)
    (m m' : Message) (hq : Q m.attrs) (h : (m.send env).result = .ok m') : Q m'.attrs := by
  rcases send_shape env m with ⟨_, e, hres⟩ | ⟨e, m0, _, _, hres, _, hst⟩ |
    ⟨m0, _, _, _, hst, hres, _⟩
  · rw [hres] at h
    cases h
  · rw [hres] at h
    cases h
    exact hst Q A hQ hq
  · rw [hres] at h
    cases h
    rw [sendFinal_attrs]
    exact hst Q A hQ hq

theorem op_stable (Q : Props → Prop) (A : String → Prop) (hQ : Stable Q A)
    (P : JSValue → Prop) (hP : BagClosed P A) (env : Env) (op : Op) (m m' : Message)
    (hbag : ∀ bag, op = .set bag → P bag) (hq : Q m.attrs) (h : op.apply env m = .ok m') :
    Q m'.attrs := by
  have key : ∀ (o : Outcome), (∀ r, o = .ok r → Q r.1.attrs) →
      o.map Prod.fst = .ok m' → Q m'.attrs := by
    intro o ho hmap
    cases o with
    | error e => cases hmap
    | ok r =>
      simp only [Except.map, Except.ok.injEq] at hmap
      rw [← hmap]
      exact ho r rfl
  cases op <;> simp only [Op.apply] at h
  case «to» arg =>
    cases arg with
    | none => exact key _ (fun r hr => by simp only [Message.to] at hr; cases hr; exact hq) h
    | some v => exact key _ (fun r hr => callMember_stable Q A hQ env .to v m r hq hr) h
  case tag v => exact key _ (fun r hr => callMember_stable Q A hQ env .tag v m r hq hr) h
  case «from» v => exact key _ (fun r hr => callMember_stable Q A hQ env .from v m r hq hr) h
  case subject v =>
    exact key _ (fun r hr => callMember_stable Q A hQ env .subject v m r hq hr) h
  case html v => exact key _ (fun r hr => callMember_stable Q A hQ env .html v m r hq hr) h
  case template v =>
    exact key _ (fun r hr => callMember_stable Q A hQ env .template v m r hq hr) h
  case dryrun v =>
    exact key _ (fun r hr => callMember_stable Q A hQ env .dryrun v m r hq hr) h
  case altText v =>
    exact key _ (fun r hr => callMember_stable Q A hQ env .altText v m r hq hr) h
  case «local» k v =>
    refine key _ (fun r hr => ?_) h
    simp only [Message.local] at hr
    split at hr
    · cases hr
      exact hq
    · split at hr
      · cases hr
      · cases hr
        exact hq
  case set bag =>
    exact key _ (fun r hr => set_stable Q A hQ P hP env bag m r (hbag bag rfl) hq hr) h
  case send => exact send_stable Q A hQ env m m' hq h

theorem reachable_stable (Q : Props → Prop) (A : String → Prop) (hQ : Stable Q A)
    (P : JSValue → Prop) (hP : BagClosed P A)
    (hfresh : ∀ key, Q (Message.fresh key).attrs) (m : Message) (h : Reachable P m) :
    Q m.attrs := by
  induction h with
  | init env attrs key m hp hnew =>
    unfold Message.new at hnew
    split at hnew
    · split at hnew
      · cases hnew
      · rename_i r hr
        cases hnew
        exact set_stable Q A hQ P hP env attrs _ r hp (hfresh key) hr
    · cases hnew
      exact hfresh key
  | step env op m m' _ hbag happ ih => exact op_stable Q A hQ P hP env op m m' hbag ih happ
  | started env m attrs _ hsub ih => exact substitute_stable Q A hQ _ _ _ _ ih hsub
  | lateHtml m html _ ih => exact hQ.store _ _ _ (by decide) hQ.named.2.1 ih
  | lateText m text _ ih => exact hQ.store _ _ _ (by decide) hQ.named.2.2.1 ih
  | lateLocals m locals _ ih => exact ih
  | lateSent m _ ih => exact ih

theorem stable_recipients :
    Stable (fun ps => hasProp ps "to" = true ∧ hasProp ps "tags" = true ∧
      (getProp ps "to").isSeq = true) (fun _ => True) where
  store := by
    intro ps k v hk _ ⟨h1, h2, h3⟩
    exact ⟨hasProp_setProp_mono _ _ _ _ h1, hasProp_setProp_mono _ _ _ _ h2,
      by rw [getProp_setProp_ne _ _ _ _ (Ne.symm hk)]; exact h3⟩
  named := ⟨trivial, trivial, trivial, trivial, trivial, trivial⟩
  recipients := by
    intro ps x w v ⟨h1, h2, h3⟩ hx hcv
    refine ⟨hasProp_setProp_mono _ _ _ _ h1, hasProp_setProp_mono _ _ _ _ h2, ?_⟩
    rw [getProp_setProp_same]
    rw [hx h1] at hcv
    cases hto : getProp ps "to" <;> rw [hto] at h3 hcv
    all_goals first
      | (simp only [concatValue] at hcv; cases hcv; rfl)
      | (simp [JSValue.isSeq] at h3)
  substituted := by
    intro ps ys ⟨h1, h2, _⟩
    exact ⟨hasProp_setProp_mono _ _ _ _ h1, hasProp_setProp_mono _ _ _ _ h2,
      by rw [getProp_setProp_same]; rfl⟩
  substitutedObj := by
    intro ps qs qs' ⟨_, _, h3⟩ hqs
    rw [hqs] at h3
    simp [JSValue.isSeq] at h3
  tags := by
    intro ps x w v ⟨h1, h2, h3⟩ _ _
    exact ⟨hasProp_setProp_mono _ _ _ _ h1, hasProp_setProp_mono _ _ _ _ h2,
      by rw [getProp_setProp_ne _ _ _ _ (by decide)]; exact h3⟩

theorem stable_tags :
    Stable (fun ps => (getProp ps "tags").isSeq = true) (fun k => k ≠ "tags") where
  store := by
    intro ps k v _ hk h
    rw [getProp_setProp_ne _ _ _ _ (Ne.symm hk)]
    exact h
  named := ⟨by decide, by decide, by decide, by decide, by decide, by decide⟩
  recipients := by
    intro ps x w v h _ _
    rw [getProp_setProp_ne _ _ _ _ (by decide)]
    exact h
  substituted := by
    intro ps ys h
    rw [getProp_setProp_ne _ _ _ _ (by decide)]
    exact h
  substitutedObj := by
    intro ps qs qs' h _
    rw [getProp_setProp_ne _ _ _ _ (by decide)]
    exact h
  tags := by
    intro ps x w v h3 hx hcv
    rw [getProp_setProp_same]
    have hp : hasProp ps "tags" = true :=
      hasProp_of_getProp ps "tags" (by
        intro hu
        rw [hu] at h3
        simp [JSValue.isSeq] at h3)
    rw [hx hp] at hcv
    cases hto : getProp ps "tags" <;> rw [hto] at h3 hcv
    all_goals first
      | (simp only [concatValue] at hcv; cases hcv; rfl)
      | (simp [JSValue.isSeq] at h3)

theorem elemsOK_all : ∀ (xs : List JSValue) (i : Nat),
    ElemsOK (fun _ => True) (fun _ => True) xs i
  | [], _ => trivial
  | _ :: xs, i => ⟨trivial, fun _ => trivial, elemsOK_all xs (i + 1)⟩

theorem charsOK_all : ∀ (cs : List Char) (i : Nat), CharsOK (fun _ => True) cs i
  | [], _ => trivial
  | _ :: cs, i => ⟨trivial, charsOK_all cs (i + 1)⟩

theorem bagClosed_all : BagClosed (fun _ => True) (fun _ => True) where
  head := fun _ _ _ _ => trivial
  nested := fun _ _ _ _ _ => trivial
  rest := fun _ _ _ _ => trivial
  elems := fun xs _ => elemsOK_all xs 0
  chars := fun s _ => charsOK_all s.data 0

theorem elemsOK_noTags : ∀ (xs : List JSValue) (i : Nat), elemsHaveTagsKey xs i = false →
    ElemsOK (fun bag => bag.hasTagsKey = false) (fun k => k ≠ "tags") xs i
  | [], _, _ => trivial
  | x :: xs, i, h => by
    simp only [elemsHaveTagsKey, Bool.or_eq_false_iff, Bool.and_eq_false_imp,
      decide_eq_false_iff_not, decide_eq_true_eq] at h
    exact ⟨h.1.1, h.1.2, elemsOK_noTags xs (i + 1) h.2⟩

theorem charsOK_noTags : ∀ (cs : List Char) (i : Nat), charsHaveTagsKey cs i = false →
    CharsOK (fun k => k ≠ "tags") cs i
  | [], _, _ => trivial
  | _ :: cs, i, h => by
    simp only [charsHaveTagsKey, Bool.or_eq_false_iff, decide_eq_false_iff_not] at h
    exact ⟨h.1, charsOK_noTags cs (i + 1) h.2⟩

theorem bagClosed_noTags :
    BagClosed (fun bag => bag.hasTagsKey = false) (fun k => k ≠ "tags") where
  head := by
    intro k v ps h hk
    simp [JSValue.hasTagsKey, propsHaveTagsKey, hk] at h
  nested := by
    intro k v ps h hk
    simp only [JSValue.hasTagsKey, propsHaveTagsKey, hk] at h
    simp only [decide_True, Bool.true_and, Bool.or_eq_false_iff] at h
    exact h.1.2
  rest := by
    intro k v ps h
    simp only [JSValue.hasTagsKey, propsHaveTagsKey, Bool.or_eq_false_iff] at h
    simpa [JSValue.hasTagsKey] using h.2
  elems := by
    intro xs h
    exact elemsOK_noTags xs 0 (by simpa [JSValue.hasTagsKey] using h)
  chars := by
    intro s h
    exact charsOK_noTags s.data 0 (by simpa [JSValue.hasTagsKey] using h)

/-- C5, as stated, fails: `set` with a bag that has the key `tags` stores the value
verbatim, here a string, and `attrs.tags` is no longer a sequence; the same
happens with a bag given at construction. -/
theorem set_overwrites_tags :
    ∃ m1 m2 m3,
      Message.new acceptingEnv .undefined (.str "api-key") = .ok m1 ∧
      m1.set acceptingEnv (.obj [("tags", .str "news")]) = .ok (m2, .self) ∧
      getProp m2.attrs "tags" = .str "news" ∧ (getProp m2.attrs "tags").isSeq = false ∧
      Reachable (fun _ => True) m2 ∧
      Message.new acceptingEnv (.obj [("tags", .str "news")]) (.str "api-key") = .ok m3 ∧
      (getProp m3.attrs "tags").isSeq = false :=
  ⟨_, _, _, rfl, rfl, rfl, rfl,
    Reachable.step acceptingEnv (.set (.obj [("tags", .str "news")])) _ _
      (Reachable.init acceptingEnv .undefined (.str "api-key") _ trivial rfl)
      (fun _ _ => trivial) rfl,
    rfl, rfl⟩

/-- C5, amended: in every state reachable from construction by public operations
that return, `attrs.to` and `attrs.tags` are present and `attrs.to` is a sequence;
`attrs.tags` is a sequence as long as no bag given to the constructor or to `set`
has the key `tags` (directly or in a bag under a `set` key). -/
theorem sequences_kept (m : Message) :
    (Reachable (fun _ => True) m →
      hasProp m.attrs "to" = true ∧ hasProp m.attrs "tags" = true ∧
      (getProp m.attrs "to").isSeq = true) ∧
    (Reachable (fun bag => bag.hasTagsKey = false) m →
      (getProp m.attrs "tags").isSeq = true) :=
  ⟨fun h => reachable_stable _ _ stable_recipients _ bagClosed_all
      (fun _ => ⟨rfl, rfl, rfl⟩) m h,
    fun h => reachable_stable _ _ stable_tags _ bagClosed_noTags (fun _ => rfl) m h⟩

/-- C5, amended, on the state after construction with a bag, a `set` that goes
through inherited members and the key `__proto__`, `tag` and `send`. -/
theorem sequences_kept_witness :
    ∃ m1 m2 m3 m4,
      Message.new acceptingEnv (.obj [("to", .str "A <a@x.com>"), ("subject", .str "Hi")])
        (.str "api-key") = .ok m1 ∧
      m1.set acceptingEnv (.obj [("toString", .num 1), ("valueOf", .null),
        ("__proto__", .obj [("subject", .str "S")]), ("send", .num 2)]) = .ok (m2, .self) ∧
      m2.tag (.str "news") = .ok (m3, .self) ∧
      (m3.send acceptingEnv).result = .ok m4 ∧
      Reachable (fun bag => bag.hasTagsKey = false) m4 ∧
      (getProp m4.attrs "tags").isSeq = true ∧
      getProp m4.attrs "tags" = .arr [.str "news"] :=
  ⟨_, _, _, _, rfl, rfl, rfl, rfl,
    Reachable.step acceptingEnv .send _ _
      (Reachable.step acceptingEnv (.tag (.str "news")) _ _
        (Reachable.step acceptingEnv (.set (.obj [("toString", .num 1), ("valueOf", .null),
            ("__proto__", .obj [("subject", .str "S")]), ("send", .num 2)])) _ _
          (Reachable.init acceptingEnv
            (.obj [("to", .str "A <a@x.com>"), ("subject", .str "Hi")])
            (.str "api-key") _ rfl rfl)
          (fun _ h => by cases h; rfl) rfl)
        (fun _ h => by cases h) rfl)
      (fun _ h => by cases h) rfl,
    (sequences_kept _).2
      (Reachable.step acceptingEnv .send _ _
        (Reachable.step acceptingEnv (.tag (.str "news")) _ _
          (Reachable.step acceptingEnv (.set (.obj [("toString", .num 1), ("valueOf", .null),
              ("__proto__", .obj [("subject", .str "S")]), ("send", .num 2)])) _ _
            (Reachable.init acceptingEnv
              (.obj [("to", .str "A <a@x.com>"), ("subject", .str "Hi")])
              (.str "api-key") _ rfl rfl)
            (fun _ h => by cases h; rfl) rfl)
          (fun _ h => by cases h) rfl)
        (fun _ h => by cases h) rfl),
    rfl⟩

end Mandrill
